import Mathlib

/-!
# Verification of the XtoNotion bot against its specification

This file gives a shallow embedding of the XtoNotion repository
(`main.py`, `notion_handler.py`, `openai_handler.py`, `format_notion_id.py`)
and proves, or refutes, the frozen claims about it.

Modelling conventions:

* Python strings are lists of Unicode code points (`PyStr := List Nat`);
  `pystr` converts a Lean string literal to this representation.
* The character classes used by the code (`str.isalnum`, `str.lower`,
  `str.strip`, regex `\w`, `\s`, `\d`, `[a-zA-Z]`) are modelled on the
  ASCII range, which covers every character the programs compare against.
* External services (Playwright, the Nitter instances, direct HTTP fetches,
  the OpenAI API, the Notion API) are oracles: an environment record holds
  the outcome of each external call, `Except`/`Option` encoding a raised
  exception or a missing result.  The branching and exception handling
  around those calls is translated from the source.
* The two URL regular expressions of `main.py` are implemented directly,
  with Python `re` semantics (leftmost match, greedy with backtracking,
  non-overlapping `findall`) specialised to those two patterns.
-/

/-- A Python string: its list of Unicode code points. -/
abbrev PyStr := List Nat

/-- Code points of a Lean string literal. -/
def pystr (s : String) : PyStr := s.data.map Char.toNat

/-- ASCII model of `str.isalnum` / the alphanumeric characters kept by
`format_notion_id`. -/
def isAlnumB (c : Nat) : Bool :=
  (48 ≤ c && c ≤ 57) || (65 ≤ c && c ≤ 90) || (97 ≤ c && c ≤ 122)

/-- Regex `\d` (ASCII). -/
def isDigitB (c : Nat) : Bool := 48 ≤ c && c ≤ 57

/-- Regex `\s` / Python whitespace (ASCII): space, tab, LF, VT, FF, CR. -/
def isSpaceB (c : Nat) : Bool :=
  c == 32 || c == 9 || c == 10 || c == 11 || c == 12 || c == 13

/-- Regex `[a-zA-Z]`. -/
def isAlphaB (c : Nat) : Bool := (65 ≤ c && c ≤ 90) || (97 ≤ c && c ≤ 122)

/-- Regex `\w` (ASCII): letters, digits and underscore. -/
def isWordB (c : Nat) : Bool := isAlnumB c || c == 95

/-- `str.lower` on one code point (ASCII). -/
def lowerChar (c : Nat) : Nat := if 65 ≤ c ∧ c ≤ 90 then c + 32 else c

/-- `str.lower` (ASCII). -/
def lowerStr (s : PyStr) : PyStr := s.map lowerChar

/-- `needle.isPrefixOf haystack` on code-point lists. -/
def isPrefixB : PyStr → PyStr → Bool
  | [], _ => true
  | _ :: _, [] => false
  | a :: as, b :: bs => a == b && isPrefixB as bs

/-- Python substring containment `needle in haystack`. -/
def containsSub (needle : PyStr) : PyStr → Bool
  | [] => isPrefixB needle []
  | c :: t => isPrefixB needle (c :: t) || containsSub needle t

/-- Python `str.strip()` (ASCII whitespace). -/
def pyStrip (s : PyStr) : PyStr :=
  ((s.dropWhile isSpaceB).reverse.dropWhile isSpaceB).reverse

/-!
## `format_notion_id.py`

```python
def format_notion_id(id_str):
    clean_id = ''.join(c for c in id_str if c.isalnum())
    ...
    formatted_id = f"{clean_id[:8]}-{clean_id[8:12]}-{clean_id[12:16]}-{clean_id[16:20]}-{clean_id[20:]}"
    return formatted_id
```

Code point 45 is the dash `-`.
-/

/-- The dash layout applied to the cleaned id: `c[:8]-c[8:12]-c[12:16]-c[16:20]-c[20:]`. -/
def notionDashLayout (c : PyStr) : PyStr :=
  c.take 8 ++ 45 ::
    ((c.drop 8).take 4 ++ 45 ::
      ((c.drop 12).take 4 ++ 45 ::
        ((c.drop 16).take 4 ++ 45 :: c.drop 20)))

/-- `format_notion_id` from `format_notion_id.py` (the warning print has no
effect on the result and is omitted). -/
def format_notion_id (id_str : PyStr) : PyStr :=
  notionDashLayout (id_str.filter isAlnumB)

lemma filter_take_of_all {p : Nat → Bool} {l : PyStr}
    (h : ∀ x ∈ l, p x = true) (n : Nat) : (l.take n).filter p = l.take n :=
  List.filter_eq_self.mpr fun x hx => h x (List.mem_of_mem_take hx)

lemma filter_drop_of_all {p : Nat → Bool} {l : PyStr}
    (h : ∀ x ∈ l, p x = true) (n : Nat) : (l.drop n).filter p = l.drop n :=
  List.filter_eq_self.mpr fun x hx => h x (List.mem_of_mem_drop hx)

lemma filter_take_drop_of_all {p : Nat → Bool} {l : PyStr}
    (h : ∀ x ∈ l, p x = true) (n m : Nat) :
    ((l.drop m).take n).filter p = (l.drop m).take n :=
  filter_take_of_all (fun x hx => h x (List.mem_of_mem_drop hx)) n

/-- Reassembling the five slices of the dash layout gives back the cleaned id. -/
lemma dashLayout_slices (c : PyStr) :
    c.take 8 ++ ((c.drop 8).take 4 ++ ((c.drop 12).take 4 ++
      ((c.drop 16).take 4 ++ c.drop 20))) = c := by
  have h8 : c.take 8 ++ (c.drop 8).take 4 = c.take 12 := by
    simpa using (List.take_add c 8 4).symm
  have h12 : c.take 12 ++ (c.drop 12).take 4 = c.take 16 := by
    simpa using (List.take_add c 12 4).symm
  have h16 : c.take 16 ++ (c.drop 16).take 4 = c.take 20 := by
    simpa using (List.take_add c 16 4).symm
  calc c.take 8 ++ ((c.drop 8).take 4 ++ ((c.drop 12).take 4 ++
          ((c.drop 16).take 4 ++ c.drop 20)))
      = ((c.take 8 ++ (c.drop 8).take 4) ++ (c.drop 12).take 4 ++
          (c.drop 16).take 4) ++ c.drop 20 := by simp [List.append_assoc]
    _ = c.take 20 ++ c.drop 20 := by rw [h8, h12, h16]
    _ = c := List.take_append_drop 20 c

/-- Filtering the dash layout with any predicate that rejects the dash and
accepts every character of `c` recovers `c`. -/
lemma filter_dashLayout {p : Nat → Bool} {c : PyStr}
    (hdash : p 45 = false) (hall : ∀ x ∈ c, p x = true) :
    (notionDashLayout c).filter p = c := by
  unfold notionDashLayout
  simp only [List.filter_append, List.filter_cons, hdash, if_neg,
    Bool.false_eq_true, not_false_iff, ite_false,
    filter_take_of_all hall, filter_drop_of_all hall,
    filter_take_drop_of_all hall]
  exact dashLayout_slices c

lemma clean_format (s : PyStr) :
    (format_notion_id s).filter isAlnumB = s.filter isAlnumB := by
  unfold format_notion_id
  exact filter_dashLayout (by decide) (fun x hx => List.of_mem_filter hx)

/-- C8 part: `format_notion_id` is idempotent. -/
lemma format_notion_id_idem (s : PyStr) :
    format_notion_id (format_notion_id s) = format_notion_id s := by
  show notionDashLayout ((format_notion_id s).filter isAlnumB) = _
  rw [clean_format]; rfl

lemma getElem_append_dash (A R : PyStr) (k : Nat) (h : A.length = k) :
    (A ++ 45 :: R)[k]? = some 45 := by
  rw [List.getElem?_append_right (Nat.le_of_eq h)]
  simp [h]

/-- **C8.** `format_notion_id` is idempotent; removing the dashes from its
output yields exactly the (model-)alphanumeric characters of the input in
order; and for every input with exactly 32 alphanumeric characters the output
has length 36, an 8-4-4-4-12 chunk layout, and dashes at positions 8, 13, 18
and 23. -/
theorem C8_format_notion_id (s : PyStr) :
    format_notion_id (format_notion_id s) = format_notion_id s
    ∧ (format_notion_id s).filter (fun c => !(c == 45)) = s.filter isAlnumB
    ∧ ((s.filter isAlnumB).length = 32 →
        (format_notion_id s).length = 36
        ∧ (∃ p1 p2 p3 p4 p5, format_notion_id s =
              p1 ++ 45 :: (p2 ++ 45 :: (p3 ++ 45 :: (p4 ++ 45 :: p5)))
            ∧ p1.length = 8 ∧ p2.length = 4 ∧ p3.length = 4 ∧ p4.length = 4
            ∧ p5.length = 12)
        ∧ (format_notion_id s)[8]? = some 45
        ∧ (format_notion_id s)[13]? = some 45
        ∧ (format_notion_id s)[18]? = some 45
        ∧ (format_notion_id s)[23]? = some 45) := by
  refine ⟨format_notion_id_idem s, ?_, ?_⟩
  · unfold format_notion_id
    rw [filter_dashLayout (p := fun c => !(c == 45)) (by decide)
      (fun x hx => ?_)]
    have hx' : isAlnumB x = true := List.of_mem_filter hx
    by_contra hne
    have : x = 45 := by
      simpa using (Bool.not_eq_true _).mp hne
    rw [this] at hx'
    exact absurd hx' (by decide)
  · intro h32
    set c : PyStr := s.filter isAlnumB with hc
    have l1 : (c.take 8).length = 8 := by rw [List.length_take, h32]; rfl
    have l2 : ((c.drop 8).take 4).length = 4 := by
      rw [List.length_take, List.length_drop, h32]; rfl
    have l3 : ((c.drop 12).take 4).length = 4 := by
      rw [List.length_take, List.length_drop, h32]; rfl
    have l4 : ((c.drop 16).take 4).length = 4 := by
      rw [List.length_take, List.length_drop, h32]; rfl
    have l5 : (c.drop 20).length = 12 := by rw [List.length_drop, h32]
    have hfmt : format_notion_id s = notionDashLayout c := rfl
    have hlay : notionDashLayout c =
        c.take 8 ++ 45 :: ((c.drop 8).take 4 ++ 45 :: ((c.drop 12).take 4 ++
          45 :: ((c.drop 16).take 4 ++ 45 :: c.drop 20))) := rfl
    refine ⟨?_, ⟨c.take 8, (c.drop 8).take 4, (c.drop 12).take 4,
      (c.drop 16).take 4, c.drop 20, by rw [hfmt, hlay], l1, l2, l3, l4, l5⟩,
      ?_, ?_, ?_, ?_⟩
    · rw [hfmt, hlay]
      simp [List.length_append, l1, l2, l3, l4, l5]
    · rw [hfmt, hlay]
      exact getElem_append_dash _ _ _ l1
    · rw [hfmt, hlay,
        show c.take 8 ++ 45 :: ((c.drop 8).take 4 ++ 45 :: ((c.drop 12).take 4
            ++ 45 :: ((c.drop 16).take 4 ++ 45 :: c.drop 20))) =
          (c.take 8 ++ 45 :: (c.drop 8).take 4) ++ 45 :: ((c.drop 12).take 4
            ++ 45 :: ((c.drop 16).take 4 ++ 45 :: c.drop 20)) by
          simp [List.append_assoc]]
      exact getElem_append_dash _ _ _ (by simp [l1, l2])
    · rw [hfmt, hlay,
        show c.take 8 ++ 45 :: ((c.drop 8).take 4 ++ 45 :: ((c.drop 12).take 4
            ++ 45 :: ((c.drop 16).take 4 ++ 45 :: c.drop 20))) =
          (c.take 8 ++ 45 :: ((c.drop 8).take 4 ++ 45 :: (c.drop 12).take 4))
            ++ 45 :: ((c.drop 16).take 4 ++ 45 :: c.drop 20) by
          simp [List.append_assoc]]
      exact getElem_append_dash _ _ _ (by simp [l1, l2, l3])
    · rw [hfmt, hlay,
        show c.take 8 ++ 45 :: ((c.drop 8).take 4 ++ 45 :: ((c.drop 12).take 4
            ++ 45 :: ((c.drop 16).take 4 ++ 45 :: c.drop 20))) =
          (c.take 8 ++ 45 :: ((c.drop 8).take 4 ++ 45 :: ((c.drop 12).take 4
            ++ 45 :: (c.drop 16).take 4))) ++ 45 :: c.drop 20 by
          simp [List.append_assoc]]
      exact getElem_append_dash _ _ _ (by simp [l1, l2, l3, l4])

/-- Witness for C8 at the docstring example id
`1cab9534753980cc8de6f88c0a2c19f4`. -/
theorem C8_format_notion_id_witness :
    ((pystr "1cab9534753980cc8de6f88c0a2c19f4").filter isAlnumB).length = 32
    ∧ (format_notion_id (pystr "1cab9534753980cc8de6f88c0a2c19f4")).length
        = 36 :=
  ⟨by decide,
    ((C8_format_notion_id (pystr "1cab9534753980cc8de6f88c0a2c19f4")).2.2
      (by decide)).1⟩

/-!
## `notion_handler.map_to_preferred_category`

Direct translation of the category normalisation heuristic
(`notion_handler.py`, lines 698–738).  Python dictionaries preserve
insertion order, so `category_keywords` is an ordered association list.
-/

def preferred_categories : List PyStr :=
  [pystr "VibeCoding Help", pystr "Cool AI", pystr "Ecommerce",
   pystr "Business Ideas", pystr "Cool Tool", pystr "App Idea",
   pystr "Ios Development"]

def category_keywords : List (PyStr × List PyStr) :=
  [(pystr "VibeCoding Help",
    [pystr "coding", pystr "programming", pystr "developer", pystr "software",
     pystr "web development", pystr "html", pystr "css", pystr "javascript",
     pystr "python", pystr "java"]),
   (pystr "Cool AI",
    [pystr "ai", pystr "artificial intelligence", pystr "machine learning",
     pystr "deep learning", pystr "nlp", pystr "gpt", pystr "model",
     pystr "neural", pystr "llm"]),
   (pystr "Ecommerce",
    [pystr "ecommerce", pystr "e-commerce", pystr "shop", pystr "shopping",
     pystr "marketplace", pystr "retail", pystr "online store",
     pystr "commerce"]),
   (pystr "Business Ideas",
    [pystr "business", pystr "startup", pystr "entrepreneur", pystr "idea",
     pystr "venture", pystr "opportunity", pystr "market"]),
   (pystr "Cool Tool",
    [pystr "tool", pystr "utility", pystr "productivity", pystr "automation",
     pystr "service", pystr "platform"]),
   (pystr "App Idea",
    [pystr "app", pystr "application", pystr "mobile", pystr "concept",
     pystr "idea"]),
   (pystr "Ios Development",
    [pystr "ios", pystr "swift", pystr "apple", pystr "iphone", pystr "ipad",
     pystr "xcode", pystr "mobile development", pystr "app development"])]

/-- `NotionHandler.map_to_preferred_category`: exact case-insensitive match
first, then the first keyword hit in dictionary order, then the input itself
when shorter than 25 characters, else `"Cool Tool"`. -/
def map_to_preferred_category (ai_category : PyStr) : PyStr :=
  match preferred_categories.find?
      (fun category => lowerStr category == lowerStr ai_category) with
  | some category => category
  | none =>
    match category_keywords.find?
        (fun q => q.2.any fun keyword =>
          containsSub keyword (lowerStr ai_category)) with
    | some q => q.1
    | none =>
      if ai_category.length < 25 then ai_category else pystr "Cool Tool"

lemma map_eq_exact {a cat : PyStr}
    (h : preferred_categories.find?
      (fun category => lowerStr category == lowerStr a) = some cat) :
    map_to_preferred_category a = cat := by
  unfold map_to_preferred_category; rw [h]

lemma map_eq_keyword {a : PyStr} {q : PyStr × List PyStr}
    (h1 : preferred_categories.find?
      (fun category => lowerStr category == lowerStr a) = none)
    (h2 : category_keywords.find?
      (fun q => q.2.any fun keyword =>
        containsSub keyword (lowerStr a)) = some q) :
    map_to_preferred_category a = q.1 := by
  unfold map_to_preferred_category; rw [h1, h2]

lemma map_eq_default {a : PyStr}
    (h1 : preferred_categories.find?
      (fun category => lowerStr category == lowerStr a) = none)
    (h2 : category_keywords.find?
      (fun q => q.2.any fun keyword =>
        containsSub keyword (lowerStr a)) = none) :
    map_to_preferred_category a =
      if a.length < 25 then a else pystr "Cool Tool" := by
  unfold map_to_preferred_category; rw [h1, h2]

/-- Each of the seven preferred categories is a fixed point of the mapping. -/
lemma map_fixed_on_preferred :
    ∀ c ∈ preferred_categories, map_to_preferred_category c = c := by decide

lemma keyword_cats_preferred :
    ∀ q ∈ category_keywords, q.1 ∈ preferred_categories := by decide

lemma map_mem_or_self (a : PyStr) :
    map_to_preferred_category a ∈ preferred_categories
    ∨ map_to_preferred_category a = a := by
  rcases h1 : preferred_categories.find?
      (fun category => lowerStr category == lowerStr a) with _ | cat
  · rcases h2 : category_keywords.find?
        (fun q => q.2.any fun keyword =>
          containsSub keyword (lowerStr a)) with _ | q
    · rw [map_eq_default h1 h2]
      by_cases hl : a.length < 25
      · right; rw [if_pos hl]
      · left; rw [if_neg hl]; decide
    · left
      rw [map_eq_keyword h1 h2]
      exact keyword_cats_preferred q (List.mem_of_find?_eq_some h2)
  · left
    rw [map_eq_exact h1]
    exact List.mem_of_find?_eq_some h1

/-- `find?` on a list whose image under `f` has no duplicates returns the
element we already know to be a hit. -/
lemma find?_eq_of_nodup_map {f : PyStr → PyStr} {l : List PyStr}
    (hn : (l.map f).Nodup) {c x : PyStr} (hc : c ∈ l) (hfc : f c = x) :
    l.find? (fun y => f y == x) = some c := by
  induction l with
  | nil => cases hc
  | cons d t ih =>
    rcases List.mem_cons.mp hc with rfl | hct
    · rw [List.find?_cons_of_pos _ (by simp [hfc])]
    · have hnd : f d ∉ t.map f := (List.nodup_cons.mp hn).1
      have hfd : (f d == x) = false := by
        apply beq_eq_false_iff_ne.mpr
        intro he
        exact hnd (he ▸ hfc ▸ List.mem_map_of_mem f hct)
      rw [List.find?_cons_of_neg _ (by simp [hfd]),
        ih (List.nodup_cons.mp hn).2 hct]

lemma find?_middle {α} (p : α → Bool) (pre post : List α) (x : α)
    (hpre : ∀ y ∈ pre, p y = false) (hx : p x = true) :
    (pre ++ x :: post).find? p = some x := by
  induction pre with
  | nil => simpa using List.find?_cons_of_pos post hx
  | cons d t ih =>
    rw [List.cons_append, List.find?_cons_of_neg _ (by
      simp [hpre d (List.mem_cons_self d t)]),
      ih fun y hy => hpre y (List.mem_cons_of_mem d hy)]

/-- **C1.** `map_to_preferred_category` returns (i) the preferred category
itself on a case-insensitive exact match, (ii) otherwise the first category in
the fixed order one of whose keywords occurs as a substring of the lowercased
input, (iii) otherwise the input unchanged when shorter than 25 characters and
`"Cool Tool"` otherwise; and (iv) it is idempotent. -/
theorem C1_map_to_preferred_category (a : PyStr) :
    (∀ c ∈ preferred_categories, lowerStr a = lowerStr c →
        map_to_preferred_category a = c)
    ∧ ((∀ c ∈ preferred_categories, lowerStr a ≠ lowerStr c) →
        ∀ pre cat kws post,
          category_keywords = pre ++ (cat, kws) :: post →
          (∀ q ∈ pre, ∀ k ∈ q.2, containsSub k (lowerStr a) = false) →
          (∃ k ∈ kws, containsSub k (lowerStr a) = true) →
          map_to_preferred_category a = cat)
    ∧ ((∀ c ∈ preferred_categories, lowerStr a ≠ lowerStr c) →
        (∀ q ∈ category_keywords, ∀ k ∈ q.2,
          containsSub k (lowerStr a) = false) →
        map_to_preferred_category a =
          if a.length < 25 then a else pystr "Cool Tool")
    ∧ map_to_preferred_category (map_to_preferred_category a)
        = map_to_preferred_category a := by
  have hnone : (∀ c ∈ preferred_categories, lowerStr a ≠ lowerStr c) →
      preferred_categories.find?
        (fun category => lowerStr category == lowerStr a) = none := by
    intro hne
    apply List.find?_eq_none.mpr
    intro c hc
    simpa using fun he => (hne c hc) he.symm
  refine ⟨?_, ?_, ?_, ?_⟩
  · intro c hc heq
    exact map_eq_exact (find?_eq_of_nodup_map (by decide) hc heq.symm)
  · intro hne pre cat kws post hsplit hprefalse ⟨k, hk, hkin⟩
    have h2 : category_keywords.find?
        (fun q => q.2.any fun keyword =>
          containsSub keyword (lowerStr a)) = some (cat, kws) := by
      rw [hsplit]
      exact find?_middle _ pre post (cat, kws)
        (fun y hy => by
          simp only [List.any_eq_false]
          exact fun kk hkk => by
            simpa using hprefalse y hy kk hkk)
        (by simp only [List.any_eq_true]; exact ⟨k, hk, hkin⟩)
    exact map_eq_keyword (hnone hne) h2
  · intro hne hkw
    apply map_eq_default (hnone hne)
    apply List.find?_eq_none.mpr
    intro q hq
    simp only [Bool.not_eq_true, List.any_eq_false]
    intro k hk
    exact hkw q hq k hk
  · rcases map_mem_or_self a with hmem | hself
    · exact map_fixed_on_preferred _ hmem
    · rw [hself]
      exact hself

/-- Witness for C1: one concrete input through each branch of the mapping. -/
theorem C1_map_to_preferred_category_witness :
    map_to_preferred_category (pystr "cool ai") = pystr "Cool AI"
    ∧ map_to_preferred_category (pystr "Check this AI model")
        = pystr "Cool AI"
    ∧ map_to_preferred_category (pystr "Something Entirely Different Label")
        = pystr "Cool Tool" := by
  refine ⟨(C1_map_to_preferred_category (pystr "cool ai")).1
      (pystr "Cool AI") (by decide) (by decide), ?_, ?_⟩
  · have h := (C1_map_to_preferred_category (pystr "Check this AI model")).2.1
      (by decide)
      [(pystr "VibeCoding Help",
        [pystr "coding", pystr "programming", pystr "developer",
         pystr "software", pystr "web development", pystr "html", pystr "css",
         pystr "javascript", pystr "python", pystr "java"])]
      (pystr "Cool AI")
      [pystr "ai", pystr "artificial intelligence", pystr "machine learning",
       pystr "deep learning", pystr "nlp", pystr "gpt", pystr "model",
       pystr "neural", pystr "llm"]
      (category_keywords.drop 2)
      (by decide) (by decide) ⟨pystr "ai", by decide, by decide⟩
    exact h
  · have h := (C1_map_to_preferred_category
        (pystr "Something Entirely Different Label")).2.2.1
      (by decide) (by decide)
    simpa using h

/-!
## The URL patterns of `main.py`

```python
TWITTER_URL_PATTERN = r'https?://(?:www\.)?(?:twitter\.com|x\.com)/[^/\s]+/status/\d+'
GENERAL_URL_PATTERN = r'https?://(?:www\.)?[\w.-]+\.[a-zA-Z]{2,}(?:/\S*)?'
```

Both patterns are implemented directly with Python `re` semantics: a match
attempt at a position is greedy with backtracking (each optional piece and
each alternation tries its first alternative and falls back to the next one
when the rest of the pattern fails); `re.search` takes the match at the
leftmost position that has one; `re.findall` scans left to right, taking
non-overlapping matches and resuming after each match (advancing by one on
an empty match).  Neither pattern has a capture group, so `findall` returns
whole matches, and the `re.search` in `process_message` wraps the whole
Twitter pattern in group 1, which is therefore the whole match as well.
-/

/-- Consume a literal prefix, returning the remainder. -/
def stripPre : PyStr → PyStr → Option PyStr
  | [], s => some s
  | _ :: _, [] => none
  | l :: ls, c :: cs => if l = c then stripPre ls cs else none

/-- `[^/\s]` : not a slash (47) and not whitespace. -/
def notSlashSpaceB (c : Nat) : Bool := !(c == 47) && !(isSpaceB c)

/-- The components of a match of `TWITTER_URL_PATTERN`. -/
structure TwitterMatch where
  hasS : Bool
  hasWww : Bool
  hostTwitter : Bool
  user : PyStr
  digits : PyStr
deriving DecidableEq

/-- `https?` rendered: the part after `http`. -/
def schemeTail (hasS : Bool) : PyStr :=
  if hasS then pystr "s://" else pystr "://"

/-- `(?:www\.)?` rendered. -/
def wwwLit (hasWww : Bool) : PyStr := if hasWww then pystr "www." else []

/-- `(?:twitter\.com|x\.com)` rendered. -/
def hostLit (hostTwitter : Bool) : PyStr :=
  if hostTwitter then pystr "twitter.com" else pystr "x.com"

/-- The text a `TwitterMatch` stands for. -/
def TwitterMatch.render (m : TwitterMatch) : PyStr :=
  pystr "http" ++
    (schemeTail m.hasS ++
      (wwwLit m.hasWww ++
        (hostLit m.hostTwitter ++
          47 :: (m.user ++ (pystr "/status/" ++ m.digits)))))

/-- `/[^/\s]+/status/\d+` after the host.  The `[^/\s]+` run cannot be
shortened by backtracking (any shorter run is followed by a non-slash
character, on which the literal `/status/` fails), so it is the maximal run. -/
def twitterTail (a b h : Bool) (r : PyStr) : Option TwitterMatch :=
  match stripPre [47] r with
  | none => none
  | some r1 =>
    if (r1.takeWhile notSlashSpaceB).isEmpty then none
    else
      match stripPre (pystr "/status/") (r1.dropWhile notSlashSpaceB) with
      | none => none
      | some r2 =>
        if (r2.takeWhile isDigitB).isEmpty then none
        else some ⟨a, b, h, r1.takeWhile notSlashSpaceB, r2.takeWhile isDigitB⟩

/-- `(?:twitter\.com|x\.com)` followed by the tail, with backtracking. -/
def twitterHost (a b : Bool) (r : PyStr) : Option TwitterMatch :=
  ((stripPre (pystr "twitter.com") r).bind (twitterTail a b true)) <|>
    ((stripPre (pystr "x.com") r).bind (twitterTail a b false))

/-- `(?:www\.)?` followed by the host, with backtracking. -/
def twitterWww (a : Bool) (r : PyStr) : Option TwitterMatch :=
  ((stripPre (pystr "www.") r).bind (twitterHost a true)) <|>
    twitterHost a false r

/-- Match `TWITTER_URL_PATTERN` at the start of `s` (`https?` with
backtracking). -/
def matchTwitterAt (s : PyStr) : Option TwitterMatch :=
  (stripPre (pystr "http") s).bind fun r0 =>
    ((stripPre (pystr "s://") r0).bind (twitterWww true)) <|>
      ((stripPre (pystr "://") r0).bind (twitterWww false))

/-- `[\w.-]`. -/
def isHostCharB (c : Nat) : Bool := isWordB c || c == 46 || c == 45

/-- Backtracking over the split point of the greedy `[\w.-]+` run for
`GENERAL_URL_PATTERN`: try host-part lengths from the maximal run length down
to 1; each candidate must be followed by `\.` (46) and at least two letters,
after which the optional greedy `/\S*` extends the match.  Returns the number
of characters consumed from `T`. -/
def generalSplit (T : PyStr) : Nat → Option Nat
  | 0 => none
  | a + 1 =>
    (match T.drop (a + 1) with
     | 46 :: more =>
       let letters := more.takeWhile isAlphaB
       if 2 ≤ letters.length then
         let after := more.drop letters.length
         let slashLen :=
           match after with
           | 47 :: _ => (after.takeWhile fun c => !(isSpaceB c)).length
           | _ => 0
         some ((a + 1) + 1 + letters.length + slashLen)
       else none
     | _ => none).orElse fun _ => generalSplit T a

/-- `[\w.-]+\.[a-zA-Z]{2,}(?:/\S*)?` starting at `r`, where `consumed`
characters of the scheme part were already consumed. -/
def generalHost (consumed : Nat) (r : PyStr) : Option Nat :=
  (generalSplit r (r.takeWhile isHostCharB).length).map (consumed + ·)

/-- Match `GENERAL_URL_PATTERN` at the start of `s`; returns the length of
the match. -/
def matchGeneralLen (s : PyStr) : Option Nat :=
  (stripPre (pystr "http") s).bind fun r0 =>
    ((stripPre (pystr "s://") r0).bind fun r1 =>
      ((stripPre (pystr "www.") r1).bind (generalHost 12)) <|>
        generalHost 8 r1) <|>
      ((stripPre (pystr "://") r0).bind fun r1 =>
        ((stripPre (pystr "www.") r1).bind (generalHost 11)) <|>
          generalHost 7 r1)

/-- The `findall` scan for the Twitter pattern, with explicit fuel (each step
consumes at least one character, so `s.length` fuel is enough; see
`findallTwitterAux_fuel`). -/
def findallTwitterAux : Nat → PyStr → List PyStr
  | 0, _ => []
  | _ + 1, [] => []
  | fuel + 1, c :: rest =>
    match matchTwitterAt (c :: rest) with
    | some m =>
      (c :: rest).take m.render.length ::
        findallTwitterAux fuel ((c :: rest).drop (max m.render.length 1))
    | none => findallTwitterAux fuel rest

/-- `re.findall(TWITTER_URL_PATTERN, s)`. -/
def findallTwitter (s : PyStr) : List PyStr := findallTwitterAux s.length s

/-- The `findall` scan for the general pattern, with explicit fuel. -/
def findallGeneralAux : Nat → PyStr → List PyStr
  | 0, _ => []
  | _ + 1, [] => []
  | fuel + 1, c :: rest =>
    match matchGeneralLen (c :: rest) with
    | some n =>
      (c :: rest).take n :: findallGeneralAux fuel ((c :: rest).drop (max n 1))
    | none => findallGeneralAux fuel rest

/-- `re.findall(GENERAL_URL_PATTERN, s)`. -/
def findallGeneral (s : PyStr) : List PyStr := findallGeneralAux s.length s

/-- The fuel argument is irrelevant as long as it is at least the length of
the scanned string, so `s.length` fuel computes the full scan. -/
lemma findallTwitterAux_fuel :
    ∀ f1 f2 s, s.length ≤ f1 → s.length ≤ f2 →
      findallTwitterAux f1 s = findallTwitterAux f2 s := by
  intro f1
  induction f1 with
  | zero =>
    intro f2 s h1 _
    have : s = [] := List.length_eq_zero.mp (Nat.le_zero.mp h1)
    subst this
    cases f2 <;> rfl
  | succ f ih =>
    intro f2 s h1 h2
    match s, f2 with
    | [], 0 => rfl
    | [], f2' + 1 => rfl
    | c :: rest, 0 => exact absurd h2 (by simp)
    | c :: rest, f2' + 1 =>
      show findallTwitterAux (f + 1) (c :: rest)
        = findallTwitterAux (f2' + 1) (c :: rest)
      simp only [findallTwitterAux]
      cases hm : matchTwitterAt (c :: rest) with
      | some m =>
        have hlen : ((c :: rest).drop (max m.render.length 1)).length ≤
            rest.length := by
          have := Nat.le_max_right m.render.length 1
          simp only [List.length_drop, List.length_cons]
          omega
        have hr : rest.length ≤ f := by simpa using h1
        have hr2 : rest.length ≤ f2' := by simpa using h2
        dsimp only
        rw [ih f2' _ (le_trans hlen hr) (le_trans hlen hr2)]
      | none =>
        have hr : rest.length ≤ f := by simpa using h1
        have hr2 : rest.length ≤ f2' := by simpa using h2
        exact ih f2' rest hr hr2

/-- Same fuel irrelevance for the general-pattern scan. -/
lemma findallGeneralAux_fuel :
    ∀ f1 f2 s, s.length ≤ f1 → s.length ≤ f2 →
      findallGeneralAux f1 s = findallGeneralAux f2 s := by
  intro f1
  induction f1 with
  | zero =>
    intro f2 s h1 _
    have : s = [] := List.length_eq_zero.mp (Nat.le_zero.mp h1)
    subst this
    cases f2 <;> rfl
  | succ f ih =>
    intro f2 s h1 h2
    match s, f2 with
    | [], 0 => rfl
    | [], f2' + 1 => rfl
    | c :: rest, 0 => exact absurd h2 (by simp)
    | c :: rest, f2' + 1 =>
      show findallGeneralAux (f + 1) (c :: rest)
        = findallGeneralAux (f2' + 1) (c :: rest)
      simp only [findallGeneralAux]
      cases hm : matchGeneralLen (c :: rest) with
      | some n =>
        have hlen : ((c :: rest).drop (max n 1)).length ≤ rest.length := by
          have := Nat.le_max_right n 1
          simp only [List.length_drop, List.length_cons]
          omega
        have hr : rest.length ≤ f := by simpa using h1
        have hr2 : rest.length ≤ f2' := by simpa using h2
        dsimp only
        rw [ih f2' _ (le_trans hlen hr) (le_trans hlen hr2)]
      | none =>
        have hr : rest.length ≤ f := by simpa using h1
        have hr2 : rest.length ≤ f2' := by simpa using h2
        exact ih f2' rest hr hr2

/-- `re.search(r'(https?://(?:www\.)?(?:twitter\.com|x\.com)/[^/\s]+/status/\d+)', s)`,
returning `group(1)` (= the whole match). -/
def searchTwitter : PyStr → Option PyStr
  | [] => none
  | c :: rest =>
    match matchTwitterAt (c :: rest) with
    | some m => some ((c :: rest).take m.render.length)
    | none => searchTwitter rest

/-!
## URL extraction in `process_message` (`main.py`, lines 140–154)
-/

/-- The per-URL exclusion test of `process_message`: a general match is
dropped when it mentions `twitter.com` or `x.com` and `re.search` finds a
base Twitter URL in it that is already in `twitter_urls`. -/
def excludedTwitter (twitter_urls : List PyStr) (url : PyStr) : Bool :=
  (containsSub (pystr "twitter.com") url || containsSub (pystr "x.com") url)
    && match searchTwitter url with
       | some b => decide (b ∈ twitter_urls)
       | none => false

/-- The two URL lists computed by `process_message`:
`re.findall(TWITTER_URL_PATTERN, message_text)` and the general matches that
survive the exclusion test. -/
def extract_urls (message_text : PyStr) : List PyStr × List PyStr :=
  let twitter_urls := findallTwitter message_text
  (twitter_urls,
    (findallGeneral message_text).filter
      fun url => !excludedTwitter twitter_urls url)

/-! ### Facts about the Twitter matcher -/

lemma stripPre_sound : ∀ {lit s r : PyStr}, stripPre lit s = some r → s = lit ++ r := by
  intro lit
  induction lit with
  | nil =>
    intro s r h
    simp only [stripPre, Option.some.injEq] at h
    simp [h]
  | cons l ls ih =>
    intro s r h
    cases s with
    | nil => simp [stripPre] at h
    | cons c cs =>
      by_cases hl : l = c
      · subst hl
        simp only [stripPre, if_pos rfl] at h
        simpa using ih h
      · simp [stripPre, hl] at h

lemma stripPre_self_append (lit r : PyStr) : stripPre lit (lit ++ r) = some r := by
  induction lit with
  | nil => rfl
  | cons l ls ih => simp [stripPre, ih]

lemma stripPre_ne_head {l c : Nat} {ls cs : PyStr} (h : l ≠ c) :
    stripPre (l :: ls) (c :: cs) = none := by
  simp [stripPre, h]

lemma takeWhile_append_all {p : Nat → Bool} {A : PyStr} (B : PyStr)
    (h : ∀ x ∈ A, p x = true) :
    (A ++ B).takeWhile p = A ++ B.takeWhile p := by
  induction A with
  | nil => simp
  | cons a A' ih =>
    have ha := h a (List.mem_cons_self a A')
    simp [List.takeWhile_cons, ha,
      ih fun x hx => h x (List.mem_cons_of_mem a hx)]

lemma dropWhile_append_all {p : Nat → Bool} {A : PyStr} (B : PyStr)
    (h : ∀ x ∈ A, p x = true) :
    (A ++ B).dropWhile p = B.dropWhile p := by
  induction A with
  | nil => simp
  | cons a A' ih =>
    have ha := h a (List.mem_cons_self a A')
    simp [List.dropWhile_cons, ha,
      ih fun x hx => h x (List.mem_cons_of_mem a hx)]

lemma takeWhile_all {p : Nat → Bool} {A : PyStr} (h : ∀ x ∈ A, p x = true) :
    A.takeWhile p = A := by
  have := takeWhile_append_all (p := p) (A := A) [] h
  simpa using this

lemma takeWhile_cons_false {p : Nat → Bool} {c : Nat} (B : PyStr)
    (h : p c = false) : (c :: B).takeWhile p = [] := by
  simp [List.takeWhile_cons, h]

lemma dropWhile_cons_false {p : Nat → Bool} {c : Nat} (B : PyStr)
    (h : p c = false) : (c :: B).dropWhile p = c :: B := by
  simp [List.dropWhile_cons, h]

lemma orElse_eq_some {α} {x y : Option α} {v : α} (h : (x <|> y) = some v) :
    x = some v ∨ (x = none ∧ y = some v) := by
  cases x with
  | none => right; exact ⟨rfl, by simpa using h⟩
  | some a => left; simpa using h

/-- What remains after a match cannot start with a digit (the greedy `\d+`
consumed every leading digit). -/
def digitFrontier (z : PyStr) : Prop :=
  z = [] ∨ ∃ c t, z = c :: t ∧ isDigitB c = false

lemma dropWhile_head_false (p : Nat → Bool) (l : PyStr) :
    l.dropWhile p = [] ∨ ∃ c t, l.dropWhile p = c :: t ∧ p c = false := by
  induction l with
  | nil => left; rfl
  | cons c t ih =>
    by_cases h : p c = true
    · simpa [List.dropWhile_cons, h] using ih
    · right
      exact ⟨c, t, by simp [List.dropWhile_cons, h], by simpa using h⟩

/-- Well-formedness of a Twitter match: the components satisfy their
character classes and are non-empty. -/
def TwitterMatch.wf (m : TwitterMatch) : Prop :=
  m.user ≠ [] ∧ (∀ c ∈ m.user, notSlashSpaceB c = true)
  ∧ m.digits ≠ [] ∧ (∀ c ∈ m.digits, isDigitB c = true)

lemma twitterTail_sound {a b ht : Bool} {r : PyStr} {m : TwitterMatch}
    (h : twitterTail a b ht r = some m) :
    m.hasS = a ∧ m.hasWww = b ∧ m.hostTwitter = ht
    ∧ (∃ rest, r = 47 :: (m.user ++ (pystr "/status/" ++ (m.digits ++ rest)))
        ∧ digitFrontier rest)
    ∧ m.wf := by
  unfold twitterTail at h
  rcases hsp : stripPre [47] r with _ | r1 <;> rw [hsp] at h
  · simp at h
  · dsimp only at h
    by_cases hie : (r1.takeWhile notSlashSpaceB).isEmpty
    · rw [if_pos hie] at h; simp at h
    · rw [if_neg hie] at h
      rcases hsp2 : stripPre (pystr "/status/") (r1.dropWhile notSlashSpaceB)
        with _ | r2 <;> rw [hsp2] at h
      · simp at h
      · dsimp only at h
        by_cases hie2 : (r2.takeWhile isDigitB).isEmpty
        · rw [if_pos hie2] at h; simp at h
        · rw [if_neg hie2] at h
          obtain rfl : m = ⟨a, b, ht, r1.takeWhile notSlashSpaceB,
              r2.takeWhile isDigitB⟩ := (Option.some.inj h).symm
          have hr : r = 47 :: r1 := stripPre_sound hsp
          have hr1 : r1 = r1.takeWhile notSlashSpaceB ++
              (pystr "/status/" ++ r2) := by
            conv_lhs => rw [← List.takeWhile_append_dropWhile
              notSlashSpaceB r1]
            rw [stripPre_sound hsp2]
          refine ⟨rfl, rfl, rfl,
            ⟨r2.dropWhile isDigitB, ?_, dropWhile_head_false isDigitB r2⟩,
            ?_, ?_, ?_, ?_⟩
          · show r = 47 :: (r1.takeWhile notSlashSpaceB ++
              (pystr "/status/" ++ (r2.takeWhile isDigitB ++
                r2.dropWhile isDigitB)))
            rw [List.takeWhile_append_dropWhile, ← hr1]
            exact hr
          · simpa using hie
          · exact fun c hc => List.mem_takeWhile_imp hc
          · simpa using hie2
          · exact fun c hc => List.mem_takeWhile_imp hc

lemma twitterHost_sound {a b : Bool} {r : PyStr} {m : TwitterMatch}
    (h : twitterHost a b r = some m) :
    m.hasS = a ∧ m.hasWww = b
    ∧ (∃ rest, r = hostLit m.hostTwitter ++
        47 :: (m.user ++ (pystr "/status/" ++ (m.digits ++ rest)))
        ∧ digitFrontier rest)
    ∧ m.wf := by
  unfold twitterHost at h
  rcases orElse_eq_some h with h1 | ⟨_, h2⟩
  · rcases Option.bind_eq_some.mp h1 with ⟨r1, hs, ht⟩
    obtain ⟨hS, hW, hT, ⟨rest, hr1, hfr⟩, hwf⟩ := twitterTail_sound ht
    exact ⟨hS, hW, ⟨rest, by
      rw [stripPre_sound hs, hr1, hT]; rfl, hfr⟩, hwf⟩
  · rcases Option.bind_eq_some.mp h2 with ⟨r1, hs, ht⟩
    obtain ⟨hS, hW, hT, ⟨rest, hr1, hfr⟩, hwf⟩ := twitterTail_sound ht
    exact ⟨hS, hW, ⟨rest, by
      rw [stripPre_sound hs, hr1, hT]; rfl, hfr⟩, hwf⟩

lemma twitterWww_sound {a : Bool} {r : PyStr} {m : TwitterMatch}
    (h : twitterWww a r = some m) :
    m.hasS = a
    ∧ (∃ rest, r = wwwLit m.hasWww ++ (hostLit m.hostTwitter ++
        47 :: (m.user ++ (pystr "/status/" ++ (m.digits ++ rest))))
        ∧ digitFrontier rest)
    ∧ m.wf := by
  unfold twitterWww at h
  rcases orElse_eq_some h with h1 | ⟨_, h2⟩
  · rcases Option.bind_eq_some.mp h1 with ⟨r1, hs, ht⟩
    obtain ⟨hS, hW, ⟨rest, hr1, hfr⟩, hwf⟩ := twitterHost_sound ht
    exact ⟨hS, ⟨rest, by rw [stripPre_sound hs, hr1, hW]; rfl, hfr⟩, hwf⟩
  · obtain ⟨hS, hW, ⟨rest, hr1, hfr⟩, hwf⟩ := twitterHost_sound h2
    exact ⟨hS, ⟨rest, by rw [hr1, hW]; rfl, hfr⟩, hwf⟩

/-- Soundness of the Twitter matcher: a match at the head of `s` means `s`
starts with the rendered match, whose components are well-formed. -/
lemma matchTwitter_sound {s : PyStr} {m : TwitterMatch}
    (h : matchTwitterAt s = some m) :
    (∃ rest, s = m.render ++ rest ∧ digitFrontier rest) ∧ m.wf := by
  unfold matchTwitterAt at h
  rcases Option.bind_eq_some.mp h with ⟨r0, hs, hb⟩
  rcases orElse_eq_some hb with h1 | ⟨_, h2⟩
  · rcases Option.bind_eq_some.mp h1 with ⟨r1, hss, hw⟩
    obtain ⟨hS, ⟨rest, hr1, hfr⟩, hwf⟩ := twitterWww_sound hw
    refine ⟨⟨rest, ?_, hfr⟩, hwf⟩
    rw [stripPre_sound hs, stripPre_sound hss, hr1]
    unfold TwitterMatch.render schemeTail
    rw [hS]
    simp [List.append_assoc]
  · rcases Option.bind_eq_some.mp h2 with ⟨r1, hss, hw⟩
    obtain ⟨hS, ⟨rest, hr1, hfr⟩, hwf⟩ := twitterWww_sound hw
    refine ⟨⟨rest, ?_, hfr⟩, hwf⟩
    rw [stripPre_sound hs, stripPre_sound hss, hr1]
    unfold TwitterMatch.render schemeTail
    rw [hS]
    simp [List.append_assoc]

lemma twitterTail_complete {a b ht : Bool} {user digits : PyStr}
    (hu : user ≠ []) (hua : ∀ c ∈ user, notSlashSpaceB c = true)
    (hd : digits ≠ []) (hda : ∀ c ∈ digits, isDigitB c = true) :
    twitterTail a b ht (47 :: (user ++ (pystr "/status/" ++ digits)))
      = some ⟨a, b, ht, user, digits⟩ := by
  have h47 : stripPre [47] (47 :: (user ++ (pystr "/status/" ++ digits)))
      = some (user ++ (pystr "/status/" ++ digits)) := by
    simp [stripPre]
  have hstat : pystr "/status/" ++ digits
      = 47 :: (pystr "status/" ++ digits) := rfl
  have htake : (user ++ (pystr "/status/" ++ digits)).takeWhile notSlashSpaceB
      = user := by
    rw [takeWhile_append_all _ hua, hstat, takeWhile_cons_false _ (by decide),
      List.append_nil]
  have hdrop : (user ++ (pystr "/status/" ++ digits)).dropWhile notSlashSpaceB
      = pystr "/status/" ++ digits := by
    rw [dropWhile_append_all _ hua, hstat,
      dropWhile_cons_false _ (by decide), ← hstat]
  unfold twitterTail
  rw [h47]
  dsimp only
  rw [htake, hdrop, if_neg (by simp [hu]), stripPre_self_append]
  dsimp only
  rw [takeWhile_all hda, if_neg (by simp [hd])]

lemma twitterHost_complete {a b ht : Bool} {Y : PyStr} {m : TwitterMatch}
    (h : twitterTail a b ht Y = some m) :
    twitterHost a b (hostLit ht ++ Y) = some m := by
  cases ht
  · show twitterHost a b (pystr "x.com" ++ Y) = some m
    have hskip : stripPre (pystr "twitter.com") (pystr "x.com" ++ Y)
        = none := stripPre_ne_head (by decide)
    unfold twitterHost
    rw [hskip, stripPre_self_append]
    simp [h]
  · show twitterHost a b (pystr "twitter.com" ++ Y) = some m
    unfold twitterHost
    rw [stripPre_self_append]
    simp [h]

lemma twitterWww_complete {a ww ht : Bool} {Y : PyStr} {m : TwitterMatch}
    (h : twitterTail a ww ht Y = some m) :
    twitterWww a (wwwLit ww ++ (hostLit ht ++ Y)) = some m := by
  cases ww
  · show twitterWww a ([] ++ (hostLit ht ++ Y)) = some m
    rw [List.nil_append]
    have hskip : stripPre (pystr "www.") (hostLit ht ++ Y) = none := by
      cases ht
      · exact stripPre_ne_head (by decide)
      · exact stripPre_ne_head (by decide)
    unfold twitterWww
    rw [hskip]
    simp [twitterHost_complete h]
  · show twitterWww a (pystr "www." ++ (hostLit ht ++ Y)) = some m
    unfold twitterWww
    rw [stripPre_self_append]
    simp [twitterHost_complete h]

/-- Completeness of the Twitter matcher: the render of any well-formed match
matches, as itself. -/
lemma matchTwitter_complete {m : TwitterMatch} (hwf : m.wf) :
    matchTwitterAt m.render = some m := by
  obtain ⟨a, ww, ht, user, digits⟩ := m
  obtain ⟨hu, hua, hd, hda⟩ := hwf
  have htail := @twitterTail_complete a ww ht user digits hu hua hd hda
  have hwww := twitterWww_complete (a := a) htail
  cases a
  · show matchTwitterAt (pystr "http" ++ (pystr "://" ++
      (wwwLit ww ++ (hostLit ht ++
        47 :: (user ++ (pystr "/status/" ++ digits)))))) = _
    have hskip : stripPre (pystr "s://") (pystr "://" ++
        (wwwLit ww ++ (hostLit ht ++
          47 :: (user ++ (pystr "/status/" ++ digits))))) = none :=
      stripPre_ne_head (by decide)
    unfold matchTwitterAt
    rw [stripPre_self_append, Option.some_bind, hskip,
      stripPre_self_append]
    simp [hwww]
  · show matchTwitterAt (pystr "http" ++ (pystr "s://" ++
      (wwwLit ww ++ (hostLit ht ++
        47 :: (user ++ (pystr "/status/" ++ digits)))))) = _
    unfold matchTwitterAt
    rw [stripPre_self_append, Option.some_bind, stripPre_self_append]
    simp [hwww]

/-- Every string produced by the Twitter `findall` scan is the render of a
well-formed match. -/
lemma findallTwitterAux_mem {fuel : Nat} :
    ∀ {s u : PyStr}, u ∈ findallTwitterAux fuel s →
      ∃ m : TwitterMatch, m.wf ∧ u = m.render := by
  induction fuel with
  | zero => intro s u h; simp [findallTwitterAux] at h
  | succ f ih =>
    intro s u h
    cases s with
    | nil => simp [findallTwitterAux] at h
    | cons c rest =>
      simp only [findallTwitterAux] at h
      cases hm : matchTwitterAt (c :: rest) with
      | some m =>
        rw [hm] at h
        dsimp only at h
        rcases List.mem_cons.mp h with rfl | hmem
        · refine ⟨m, (matchTwitter_sound hm).2, ?_⟩
          obtain ⟨r, hr, _⟩ := (matchTwitter_sound hm).1
          rw [hr]
          exact List.take_left m.render r
        · exact ih hmem
      | none =>
        rw [hm] at h
        exact ih h

lemma findallTwitter_mem {s u : PyStr} (h : u ∈ findallTwitter s) :
    ∃ m : TwitterMatch, m.wf ∧ u = m.render :=
  findallTwitterAux_mem h

lemma searchTwitter_of_match {s : PyStr} {m : TwitterMatch}
    (h : matchTwitterAt s = some m) :
    searchTwitter s = some (s.take m.render.length) := by
  cases s with
  | nil => rw [show matchTwitterAt [] = none from rfl] at h; cases h
  | cons c rest =>
    simp only [searchTwitter]
    rw [h]

lemma isPrefixB_self_append (n b : PyStr) : isPrefixB n (n ++ b) = true := by
  induction n with
  | nil => simp [isPrefixB]
  | cons a as ih => simp [isPrefixB, ih]

lemma containsSub_of_isPrefixB {n h : PyStr} (hp : isPrefixB n h = true) :
    containsSub n h = true := by
  cases h with
  | nil => simpa [containsSub] using hp
  | cons c t => simp [containsSub, hp]

lemma containsSub_of_decomp (a n b : PyStr) :
    containsSub n (a ++ (n ++ b)) = true := by
  induction a with
  | nil => simpa using containsSub_of_isPrefixB (isPrefixB_self_append n b)
  | cons c t ih => simp [containsSub, ih]

lemma render_contains_host (m : TwitterMatch) :
    containsSub (pystr "twitter.com") m.render = true
    ∨ containsSub (pystr "x.com") m.render = true := by
  cases hht : m.hostTwitter
  · right
    have hre : m.render = (pystr "http" ++ (schemeTail m.hasS ++
        wwwLit m.hasWww)) ++ (pystr "x.com" ++
          (47 :: (m.user ++ (pystr "/status/" ++ m.digits)))) := by
      unfold TwitterMatch.render hostLit
      rw [hht]
      simp [List.append_assoc]
    rw [hre]
    exact containsSub_of_decomp _ _ _
  · left
    have hre : m.render = (pystr "http" ++ (schemeTail m.hasS ++
        wwwLit m.hasWww)) ++ (pystr "twitter.com" ++
          (47 :: (m.user ++ (pystr "/status/" ++ m.digits)))) := by
      unfold TwitterMatch.render hostLit
      rw [hht]
      simp [List.append_assoc]
    rw [hre]
    exact containsSub_of_decomp _ _ _

lemma extract_urls_fst (msg : PyStr) :
    (extract_urls msg).1 = findallTwitter msg := rfl

lemma extract_urls_snd (msg : PyStr) :
    (extract_urls msg).2 = (findallGeneral msg).filter
      (fun url => !excludedTwitter (findallTwitter msg) url) := rfl

/-- A Twitter `findall` result always triggers the exclusion test against a
list containing it. -/
lemma excluded_of_mem_findall {msg u : PyStr} (hu : u ∈ findallTwitter msg) :
    excludedTwitter (findallTwitter msg) u = true := by
  obtain ⟨m, hwf, rfl⟩ := findallTwitter_mem hu
  have hmatch := matchTwitter_complete hwf
  have hsearch := searchTwitter_of_match hmatch
  rw [List.take_length] at hsearch
  unfold excludedTwitter
  rw [hsearch]
  rcases render_contains_host m with h | h <;>
    simp [h, decide_eq_true hu]

lemma excludedTwitter_iff (tw : List PyStr) (g : PyStr) :
    excludedTwitter tw g = true ↔
      ((containsSub (pystr "twitter.com") g = true
        ∨ containsSub (pystr "x.com") g = true)
       ∧ ∃ b, searchTwitter g = some b ∧ b ∈ tw) := by
  unfold excludedTwitter
  cases hs : searchTwitter g with
  | none => simp [hs]
  | some b => simp [hs]

/-!
### Localization: a general match containing a found Twitter URL is excluded

The rest of this section proves the containment clause of C3: whenever a
string collected by the general-pattern `findall` contains (as a substring) a
string collected by the Twitter-pattern `findall`, the exclusion test of
`process_message` fires and the general match is dropped.  The proof needs
completeness of the Twitter scan (a match position not covered by an earlier
match is collected), the fact that a Twitter match cannot start strictly
inside another one (no `http://` or `https://` occurs at a positive offset
of a render), and enough structure of the general match to know where it
ends.
-/

lemma matchTwitterAt_nil : matchTwitterAt [] = none := rfl

lemma render_length_pos (m : TwitterMatch) : 0 < m.render.length := by
  unfold TwitterMatch.render
  rw [List.length_append, (show (pystr "http").length = 4 from rfl)]
  omega

lemma isSpaceB_not_digit {c : Nat} (h : isSpaceB c = true) :
    isDigitB c = false := by
  simp only [isSpaceB, Bool.or_eq_true, beq_iff_eq] at h
  simp only [isDigitB, Bool.and_eq_false_iff, decide_eq_false_iff_not]
  omega

lemma isHostCharB_props {c : Nat} (h : isHostCharB c = true) :
    c ≠ 47 ∧ isSpaceB c = false := by
  simp only [isHostCharB, isWordB, isAlnumB, Bool.or_eq_true,
    Bool.and_eq_true, decide_eq_true_eq, beq_iff_eq] at h
  constructor
  · omega
  · simp only [isSpaceB, Bool.or_eq_false_iff, beq_eq_false_iff_ne]
    omega

lemma isAlphaB_props {c : Nat} (h : isAlphaB c = true) :
    c ≠ 47 ∧ isSpaceB c = false := by
  simp only [isAlphaB, Bool.or_eq_true, Bool.and_eq_true,
    decide_eq_true_eq] at h
  constructor
  · omega
  · simp only [isSpaceB, Bool.or_eq_false_iff, beq_eq_false_iff_ne]
    omega

lemma notSlashSpaceB_ne47 {c : Nat} (h : notSlashSpaceB c = true) : c ≠ 47 := by
  simp only [notSlashSpaceB, Bool.and_eq_true, Bool.not_eq_true',
    beq_eq_false_iff_ne] at h
  exact h.1

lemma isPrefixB_decomp : ∀ {n h : PyStr}, isPrefixB n h = true →
    ∃ y, h = n ++ y := by
  intro n
  induction n with
  | nil => exact fun hp => ⟨_, rfl⟩
  | cons a as ih =>
    intro h hp
    cases h with
    | nil => simp [isPrefixB] at hp
    | cons b bs =>
      simp only [isPrefixB, Bool.and_eq_true, beq_iff_eq] at hp
      obtain ⟨y, hy⟩ := ih hp.2
      exact ⟨y, by rw [hp.1, hy]; rfl⟩

lemma containsSub_decomp : ∀ {h n : PyStr}, containsSub n h = true →
    ∃ x y, h = x ++ (n ++ y) := by
  intro h
  induction h with
  | nil =>
    intro n hc
    obtain ⟨y, hy⟩ := isPrefixB_decomp (by simpa [containsSub] using hc)
    exact ⟨[], y, by simpa using hy⟩
  | cons c t ih =>
    intro n hc
    simp only [containsSub, Bool.or_eq_true] at hc
    rcases hc with hp | hrec
    · obtain ⟨y, hy⟩ := isPrefixB_decomp hp
      exact ⟨[], y, by simpa using hy⟩
    · obtain ⟨x, y, hxy⟩ := ih hrec
      exact ⟨c :: x, y, by rw [hxy]; rfl⟩

lemma containsSub_trans {n t g : PyStr} (h1 : containsSub n t = true)
    (h2 : containsSub t g = true) : containsSub n g = true := by
  obtain ⟨x1, y1, hd1⟩ := containsSub_decomp h1
  obtain ⟨x2, y2, hd2⟩ := containsSub_decomp h2
  have hg : g = (x2 ++ x1) ++ (n ++ (y1 ++ y2)) := by
    rw [hd2, hd1]
    simp [List.append_assoc]
  rw [hg]
  exact containsSub_of_decomp _ _ _

lemma drop_append_le {A B : PyStr} {o : Nat} (h : o ≤ A.length) :
    (A ++ B).drop o = A.drop o ++ B := by
  rw [List.drop_append_eq_append_drop, Nat.sub_eq_zero_of_le h,
    List.drop_zero]

lemma drop_append_ge {A B : PyStr} {o : Nat} (h : A.length ≤ o) :
    (A ++ B).drop o = B.drop (o - A.length) := by
  rw [List.drop_append_eq_append_drop, List.drop_eq_nil_of_le h,
    List.nil_append]

lemma scheme_merge_plain (Z : PyStr) :
    pystr "http" ++ (pystr "://" ++ Z) = pystr "http://" ++ Z := rfl

lemma scheme_merge_s (Z : PyStr) :
    pystr "http" ++ (pystr "s://" ++ Z) = pystr "https://" ++ Z := rfl

/-- Every string accepted by the Twitter matcher starts with `http://` or
`https://`. -/
lemma matchTwitter_startsHttp {w : PyStr} {m : TwitterMatch}
    (h : matchTwitterAt w = some m) :
    isPrefixB (pystr "http://") w = true
    ∨ isPrefixB (pystr "https://") w = true := by
  obtain ⟨⟨rest, hw, _⟩, _⟩ := matchTwitter_sound h
  cases hS : m.hasS
  · left
    rw [hw]
    unfold TwitterMatch.render schemeTail
    rw [hS]
    simp only [Bool.false_eq_true, if_false, List.append_assoc]
    rw [scheme_merge_plain]
    exact isPrefixB_self_append _ _
  · right
    rw [hw]
    unfold TwitterMatch.render schemeTail
    rw [hS]
    simp only [if_true, List.append_assoc]
    rw [scheme_merge_s]
    exact isPrefixB_self_append _ _

lemma head_mem_of_drop_append {A : PyStr} {j : Nat} (hj : j < A.length)
    (R : PyStr) : ∀ c t, A.drop j ++ R = c :: t → c ∈ A.drop j := by
  have hne : A.drop j ≠ [] := by
    intro hnil
    have := List.drop_eq_nil_iff.mp hnil
    omega
  obtain ⟨c0, t0, hct0⟩ := List.exists_cons_of_ne_nil hne
  intro c t hct
  rw [hct0] at hct
  rw [hct0]
  injection hct with h1 _
  rw [← h1]
  exact List.mem_cons_self _ _

/-- If a string cannot start with `h` (104), no Twitter match starts there. -/
lemma no_http_of_head_ne {w : PyStr} (hh : ∀ c t, w = c :: t → c ≠ 104)
    (hp : isPrefixB (pystr "http://") w = true
      ∨ isPrefixB (pystr "https://") w = true) : False := by
  cases w with
  | nil =>
    rcases hp with hp | hp <;> simp [isPrefixB, pystr] at hp
  | cons c t =>
    have hc := hh c t rfl
    rcases hp with hp | hp
    · rw [show pystr "http://" = 104 :: pystr "ttp://" from rfl] at hp
      simp only [isPrefixB, Bool.and_eq_true, beq_iff_eq] at hp
      exact hc hp.1.symm
    · rw [show pystr "https://" = 104 :: pystr "ttps://" from rfl] at hp
      simp only [isPrefixB, Bool.and_eq_true, beq_iff_eq] at hp
      exact hc hp.1.symm

/-- A slash-free run followed by `/s` (the user component followed by
`/status/`) never exhibits `http://` or `https://` as a prefix: the two
adjacent slashes those literals demand are not available. -/
lemma no_http_userRegion {V R : PyStr} (hV : ∀ c ∈ V, c ≠ 47)
    (hp : isPrefixB (pystr "http://") (V ++ (47 :: (115 :: R))) = true
      ∨ isPrefixB (pystr "https://") (V ++ (47 :: (115 :: R))) = true) :
    False := by
  rcases V with _ | ⟨v0, _ | ⟨v1, _ | ⟨v2, _ | ⟨v3, _ | ⟨v4, _ | ⟨v5,
    _ | ⟨v6, V7⟩⟩⟩⟩⟩⟩⟩ <;>
  rcases hp with hp | hp <;>
  simp only [show (pystr "http://" : PyStr)
      = [104, 116, 116, 112, 58, 47, 47] from rfl,
    show (pystr "https://" : PyStr)
      = [104, 116, 116, 112, 115, 58, 47, 47] from rfl] at hp <;>
  simp only [List.cons_append, List.nil_append, isPrefixB,
    Bool.and_eq_true, beq_iff_eq] at hp <;>
  first
    | omega
    | exact hV v5 (by simp) (by omega)
    | exact hV v6 (by simp) (by omega)

/-- **No internal match**: a Twitter match cannot begin at a positive offset
strictly inside the render of a well-formed match, whatever follows it. -/
lemma matchTwitterAt_drop_inside {m : TwitterMatch} (hwf : m.wf) (o : Nat)
    (tail : PyStr) (ho1 : 0 < o) (ho2 : o < m.render.length) :
    matchTwitterAt ((m.render ++ tail).drop o) = none := by
  obtain ⟨hu, hua, hd, hda⟩ := hwf
  cases hm : matchTwitterAt ((m.render ++ tail).drop o) with
  | none => rfl
  | some mm =>
    exfalso
    have hp := matchTwitter_startsHttp hm
    obtain ⟨a, ww, ht, U, G⟩ := m
    have hre : (TwitterMatch.render ⟨a, ww, ht, U, G⟩) ++ tail
        = (pystr "http" ++ schemeTail a) ++ ((wwwLit ww) ++ ((hostLit ht) ++
            (47 :: (U ++ (pystr "/status/" ++ (G ++ tail)))))) := by
      unfold TwitterMatch.render
      simp [List.append_assoc]
    rw [hre] at hp
    have hlenr : (TwitterMatch.render ⟨a, ww, ht, U, G⟩).length
        = (pystr "http" ++ schemeTail a).length + ((wwwLit ww).length
          + ((hostLit ht).length + (1 + (U.length + (8 + G.length))))) := by
      unfold TwitterMatch.render
      simp only [List.length_append, List.length_cons,
        show (pystr "/status/").length = 8 from rfl]
      omega
    rw [hlenr] at ho2
    by_cases h1 : o < (pystr "http" ++ schemeTail a).length
    · rw [drop_append_le (le_of_lt h1)] at hp
      refine no_http_of_head_ne ?_ hp
      intro c t hct
      have hcm := head_mem_of_drop_append h1 _ c t hct
      have hdd : (pystr "http" ++ schemeTail a).drop o
          = ((pystr "http" ++ schemeTail a).drop 1).drop (o - 1) := by
        rw [List.drop_drop]
        congr 1
        omega
      rw [hdd] at hcm
      have hcm1 := List.drop_subset _ _ hcm
      cases a
      · exact (by decide :
          ∀ x ∈ (pystr "http" ++ schemeTail false).drop 1, x ≠ 104) c hcm1
      · exact (by decide :
          ∀ x ∈ (pystr "http" ++ schemeTail true).drop 1, x ≠ 104) c hcm1
    · rw [drop_append_ge (le_of_not_lt h1)] at hp
      by_cases h2 : o - (pystr "http" ++ schemeTail a).length
          < (wwwLit ww).length
      · rw [drop_append_le (le_of_lt h2)] at hp
        refine no_http_of_head_ne ?_ hp
        intro c t hct
        have hcm := List.drop_subset _ _
          (head_mem_of_drop_append h2 _ c t hct)
        cases ww
        · exact absurd h2 (by simp [wwwLit])
        · exact (by decide : ∀ x ∈ wwwLit true, x ≠ 104) c hcm
      · rw [drop_append_ge (le_of_not_lt h2)] at hp
        by_cases h3 : o - (pystr "http" ++ schemeTail a).length
            - (wwwLit ww).length < (hostLit ht).length
        · rw [drop_append_le (le_of_lt h3)] at hp
          refine no_http_of_head_ne ?_ hp
          intro c t hct
          have hcm := List.drop_subset _ _
            (head_mem_of_drop_append h3 _ c t hct)
          cases ht
          · exact (by decide : ∀ x ∈ hostLit false, x ≠ 104) c hcm
          · exact (by decide : ∀ x ∈ hostLit true, x ≠ 104) c hcm
        · rw [drop_append_ge (le_of_not_lt h3)] at hp
          by_cases h4 : o - (pystr "http" ++ schemeTail a).length
              - (wwwLit ww).length - (hostLit ht).length = 0
          · rw [h4, List.drop_zero] at hp
            exact no_http_of_head_ne
              (fun c t hct => by injection hct with hc _; omega) hp
          · have h4p : 0 < o - (pystr "http" ++ schemeTail a).length
                - (wwwLit ww).length - (hostLit ht).length := by omega
            rw [show o - (pystr "http" ++ schemeTail a).length
                - (wwwLit ww).length - (hostLit ht).length
                = (o - (pystr "http" ++ schemeTail a).length
                  - (wwwLit ww).length - (hostLit ht).length - 1) + 1
              from by omega, List.drop_succ_cons] at hp
            by_cases h5 : o - (pystr "http" ++ schemeTail a).length
                - (wwwLit ww).length - (hostLit ht).length - 1 ≤ U.length
            · rw [drop_append_le h5,
                show pystr "/status/" ++ (G ++ tail)
                  = 47 :: (115 :: (pystr "tatus/" ++ (G ++ tail)))
                from rfl] at hp
              exact no_http_userRegion
                (fun c hc =>
                  notSlashSpaceB_ne47 (hua c (List.drop_subset _ _ hc))) hp
            · rw [drop_append_ge (by omega)] at hp
              by_cases h6 : o - (pystr "http" ++ schemeTail a).length
                  - (wwwLit ww).length - (hostLit ht).length - 1 - U.length
                  < (pystr "/status/").length
              · rw [drop_append_le (le_of_lt h6)] at hp
                refine no_http_of_head_ne ?_ hp
                intro c t hct
                have hcm := List.drop_subset _ _
                  (head_mem_of_drop_append h6 _ c t hct)
                exact (by decide : ∀ x ∈ pystr "/status/", x ≠ 104) c hcm
              · rw [drop_append_ge (le_of_not_lt h6)] at hp
                by_cases h7 : o - (pystr "http" ++ schemeTail a).length
                    - (wwwLit ww).length - (hostLit ht).length - 1 - U.length
                    - (pystr "/status/").length < G.length
                · rw [drop_append_le (le_of_lt h7)] at hp
                  refine no_http_of_head_ne ?_ hp
                  intro c t hct
                  have hcm := List.drop_subset _ _
                    (head_mem_of_drop_append h7 _ c t hct)
                  have hdig := hda c hcm
                  simp only [isDigitB, Bool.and_eq_true,
                    decide_eq_true_eq] at hdig
                  omega
                · rw [show (pystr "/status/").length = 8 from rfl] at h6 h7
                  omega

/-- What `re.search` finds is a match at some position of the string. -/
lemma searchTwitter_sound : ∀ {s b : PyStr}, searchTwitter s = some b →
    ∃ (p : Nat) (m : TwitterMatch), matchTwitterAt (s.drop p) = some m
      ∧ b = (s.drop p).take m.render.length := by
  intro s
  induction s with
  | nil => intro b h; simp [searchTwitter] at h
  | cons c rest ih =>
    intro b h
    simp only [searchTwitter] at h
    cases hm : matchTwitterAt (c :: rest) with
    | some m =>
      rw [hm] at h
      refine ⟨0, m, ?_, ?_⟩
      · rw [List.drop_zero]; exact hm
      · rw [List.drop_zero]; exact (Option.some.inj h).symm
    | none =>
      rw [hm] at h
      obtain ⟨p, m, h1, h2⟩ := ih h
      exact ⟨p + 1, m, by rw [List.drop_succ_cons]; exact h1,
        by rw [List.drop_succ_cons]; exact h2⟩

/-- If some position of `s` matches, `re.search` succeeds on `s`. -/
lemma searchTwitter_of_match_at : ∀ {s : PyStr} (p : Nat) {m : TwitterMatch},
    matchTwitterAt (s.drop p) = some m → ∃ b, searchTwitter s = some b := by
  intro s
  induction s with
  | nil =>
    intro p m h
    rw [List.drop_nil, matchTwitterAt_nil] at h
    exact Option.noConfusion h
  | cons c rest ih =>
    intro p m h
    cases hm : matchTwitterAt (c :: rest) with
    | some m0 => exact ⟨_, by simp only [searchTwitter]; rw [hm]⟩
    | none =>
      cases p with
      | zero =>
        rw [List.drop_zero, hm] at h
        exact Option.noConfusion h
      | succ q =>
        rw [List.drop_succ_cons] at h
        obtain ⟨b, hb⟩ := ih q h
        exact ⟨b, by simp only [searchTwitter]; rw [hm]; exact hb⟩

/-- Completeness with an arbitrary continuation: the render of a well-formed
match still matches (as itself) when followed by anything that does not start
with a digit. -/
lemma twitterTail_complete_ext {a b ht : Bool} {user digits z : PyStr}
    (hu : user ≠ []) (hua : ∀ c ∈ user, notSlashSpaceB c = true)
    (hd : digits ≠ []) (hda : ∀ c ∈ digits, isDigitB c = true)
    (hz : digitFrontier z) :
    twitterTail a b ht (47 :: (user ++ (pystr "/status/" ++ (digits ++ z))))
      = some ⟨a, b, ht, user, digits⟩ := by
  have h47 : stripPre [47]
      (47 :: (user ++ (pystr "/status/" ++ (digits ++ z))))
      = some (user ++ (pystr "/status/" ++ (digits ++ z))) := by
    simp [stripPre]
  have hstat : pystr "/status/" ++ (digits ++ z)
      = 47 :: (pystr "status/" ++ (digits ++ z)) := rfl
  have htake : (user ++ (pystr "/status/"
        ++ (digits ++ z))).takeWhile notSlashSpaceB = user := by
    rw [takeWhile_append_all _ hua, hstat, takeWhile_cons_false _ (by decide),
      List.append_nil]
  have hdrop : (user ++ (pystr "/status/"
        ++ (digits ++ z))).dropWhile notSlashSpaceB
      = pystr "/status/" ++ (digits ++ z) := by
    rw [dropWhile_append_all _ hua, hstat,
      dropWhile_cons_false _ (by decide), ← hstat]
  have hdig : (digits ++ z).takeWhile isDigitB = digits := by
    rw [takeWhile_append_all _ hda]
    rcases hz with rfl | ⟨ch, t, rfl, hch⟩
    · simp
    · rw [takeWhile_cons_false _ hch, List.append_nil]
  unfold twitterTail
  rw [h47]
  dsimp only
  rw [htake, hdrop, if_neg (by simp [hu]), stripPre_self_append]
  dsimp only
  rw [hdig, if_neg (by simp [hd])]

lemma matchTwitter_complete_ext {m : TwitterMatch} (hwf : m.wf) {z : PyStr}
    (hz : digitFrontier z) : matchTwitterAt (m.render ++ z) = some m := by
  obtain ⟨a, ww, ht, user, digits⟩ := m
  obtain ⟨hu, hua, hd, hda⟩ := hwf
  have htail := @twitterTail_complete_ext a ww ht user digits z
    hu hua hd hda hz
  have hwww := twitterWww_complete (a := a) htail
  have hassoc : (TwitterMatch.render ⟨a, ww, ht, user, digits⟩) ++ z
      = pystr "http" ++ (schemeTail a ++ (wwwLit ww ++ (hostLit ht ++
          47 :: (user ++ (pystr "/status/" ++ (digits ++ z)))))) := by
    unfold TwitterMatch.render
    simp [List.append_assoc]
  rw [hassoc]
  cases a
  · have hskip : stripPre (pystr "s://") (pystr "://" ++
        (wwwLit ww ++ (hostLit ht ++
          47 :: (user ++ (pystr "/status/" ++ (digits ++ z)))))) = none :=
      stripPre_ne_head (by decide)
    show matchTwitterAt (pystr "http" ++ (pystr "://" ++
      (wwwLit ww ++ (hostLit ht ++
        47 :: (user ++ (pystr "/status/" ++ (digits ++ z))))))) = _
    unfold matchTwitterAt
    rw [stripPre_self_append, Option.some_bind, hskip,
      stripPre_self_append]
    simp [hwww]
  · show matchTwitterAt (pystr "http" ++ (pystr "s://" ++
      (wwwLit ww ++ (hostLit ht ++
        47 :: (user ++ (pystr "/status/" ++ (digits ++ z))))))) = _
    unfold matchTwitterAt
    rw [stripPre_self_append, Option.some_bind, stripPre_self_append]
    simp [hwww]

/-- A render followed by anything still matches (the greedy digits may absorb
a leading digit run of the continuation). -/
lemma matchTwitter_append (m : TwitterMatch) (hwf : m.wf) (z : PyStr) :
    ∃ mx : TwitterMatch, matchTwitterAt (m.render ++ z) = some mx := by
  obtain ⟨a, ww, ht, user, digits⟩ := m
  obtain ⟨hu, hua, hd, hda⟩ := hwf
  refine ⟨⟨a, ww, ht, user, digits ++ z.takeWhile isDigitB⟩, ?_⟩
  have hwf2 : (⟨a, ww, ht, user,
      digits ++ z.takeWhile isDigitB⟩ : TwitterMatch).wf := by
    refine ⟨hu, hua, by simp [hd], ?_⟩
    intro c hc
    rcases List.mem_append.mp hc with hc | hc
    · exact hda c hc
    · exact List.mem_takeWhile_imp hc
  have heq : (TwitterMatch.render ⟨a, ww, ht, user, digits⟩) ++ z
      = (TwitterMatch.render ⟨a, ww, ht, user,
          digits ++ z.takeWhile isDigitB⟩) ++ z.dropWhile isDigitB := by
    unfold TwitterMatch.render
    simp only [List.append_assoc, List.cons_append]
    rw [List.takeWhile_append_dropWhile]
  rw [heq]
  exact matchTwitter_complete_ext hwf2 (dropWhile_head_false isDigitB z)

/-- Completeness of the `findall` scan: a match at a position not covered by
any earlier match is collected. -/
lemma findallTwitterAux_complete : ∀ (fuel : Nat) (s : PyStr),
    s.length ≤ fuel → ∀ (P : Nat) (m : TwitterMatch),
    matchTwitterAt (s.drop P) = some m →
    (∀ Q mQ, Q < P → matchTwitterAt (s.drop Q) = some mQ →
      Q + mQ.render.length ≤ P) →
    m.render ∈ findallTwitterAux fuel s := by
  intro fuel
  induction fuel with
  | zero =>
    intro s hs P m hm _
    obtain rfl : s = [] := List.length_eq_zero.mp (Nat.le_zero.mp hs)
    rw [List.drop_nil, matchTwitterAt_nil] at hm
    exact Option.noConfusion hm
  | succ f ih =>
    intro s hs P m hm hnc
    cases s with
    | nil =>
      rw [List.drop_nil, matchTwitterAt_nil] at hm
      exact Option.noConfusion hm
    | cons c rest =>
      cases hm0 : matchTwitterAt (c :: rest) with
      | none =>
        simp only [findallTwitterAux]
        rw [hm0]
        cases P with
        | zero =>
          rw [List.drop_zero, hm0] at hm
          exact Option.noConfusion hm
        | succ p =>
          rw [List.drop_succ_cons] at hm
          refine ih rest (by simpa using hs) p m hm ?_
          intro Q mQ hQ hmQ
          have := hnc (Q + 1) mQ (by omega)
            (by rw [List.drop_succ_cons]; exact hmQ)
          omega
      | some m0 =>
        have hlen0 : 0 < m0.render.length := render_length_pos m0
        simp only [findallTwitterAux]
        rw [hm0]
        have hmax : max m0.render.length 1 = m0.render.length := by omega
        dsimp only
        rw [hmax]
        rcases Nat.eq_zero_or_pos P with rfl | hP
        · rw [List.drop_zero, hm0] at hm
          obtain rfl : m0 = m := Option.some.inj hm
          obtain ⟨r, hr, _⟩ := (matchTwitter_sound hm0).1
          have htk : (c :: rest).take m0.render.length = m0.render := by
            rw [hr]
            exact List.take_left _ _
          rw [htk]
          exact List.mem_cons_self _ _
        · have hcov := hnc 0 m0 hP (by rw [List.drop_zero]; exact hm0)
          apply List.mem_cons_of_mem
          have hdd : ((c :: rest).drop m0.render.length).drop
              (P - m0.render.length) = (c :: rest).drop P := by
            rw [List.drop_drop]
            congr 1
            omega
          refine ih ((c :: rest).drop m0.render.length) ?_
            (P - m0.render.length) m (by rw [hdd]; exact hm) ?_
          · simp only [List.length_drop, List.length_cons]
            simp only [List.length_cons] at hs
            omega
          · intro Q mQ hQ hmQ
            rw [List.drop_drop, Nat.add_comm] at hmQ
            have := hnc (Q + m0.render.length) mQ (by omega) hmQ
            omega

lemma orElse_eq_some2 {α} {x : Option α} {f : Unit → Option α} {v : α}
    (h : x.orElse f = some v) : x = some v ∨ (x = none ∧ f () = some v) := by
  cases x with
  | none => right; exact ⟨rfl, by simpa [Option.orElse] using h⟩
  | some a => left; simpa [Option.orElse] using h

lemma drop_takeWhile_length (p : Nat → Bool) :
    ∀ l : PyStr, l.drop (l.takeWhile p).length = l.dropWhile p := by
  intro l
  induction l with
  | nil => rfl
  | cons c t ih =>
    by_cases hc : p c = true
    · rw [List.takeWhile_cons_of_pos hc, List.dropWhile_cons_of_pos hc,
        List.length_cons, List.drop_succ_cons]
      exact ih
    · rw [List.takeWhile_cons_of_neg (by simpa using hc),
        List.dropWhile_cons_of_neg (by simpa using hc)]
      rfl

lemma mem_take_of_le_takeWhile {p : Nat → Bool} {l : PyStr} {j : Nat}
    (hj : j ≤ (l.takeWhile p).length) : ∀ c ∈ l.take j, p c = true := by
  intro c hc
  have hpre : l.take j = (l.takeWhile p).take j := by
    conv_lhs => rw [← List.takeWhile_append_dropWhile (p := p) (l := l)]
    rw [List.take_append_eq_append_take, Nat.sub_eq_zero_of_le hj,
      List.take_zero, List.append_nil]
  rw [hpre] at hc
  exact List.mem_takeWhile_imp (List.take_subset _ _ hc)

/-- Structure of a successful host-split: there is a dot position `j`, at
least two letters after the dot, an optional slash part (maximal non-space
run headed by a slash), and what follows the match starts with whitespace or
is empty whenever the slash part was taken. -/
lemma generalSplit_sound : ∀ (a : Nat) {T : PyStr} {k : Nat},
    a ≤ (T.takeWhile isHostCharB).length → generalSplit T a = some k →
    ∃ (j : Nat) (letters slashpart rest : PyStr),
      T = T.take j ++ (46 :: (letters ++ (slashpart ++ rest)))
      ∧ k = j + 1 + letters.length + slashpart.length
      ∧ 0 < j ∧ j ≤ (T.takeWhile isHostCharB).length
      ∧ 2 ≤ letters.length
      ∧ (∀ c ∈ letters, isAlphaB c = true)
      ∧ (slashpart = [] ∨
          ((∃ sp, slashpart = 47 :: sp)
           ∧ (∀ c ∈ slashpart, isSpaceB c = false)
           ∧ (rest = [] ∨ ∃ ch t, rest = ch :: t ∧ isSpaceB ch = true))) := by
  intro a
  induction a with
  | zero =>
    intro T k _ h
    rw [show generalSplit T 0 = none from rfl] at h
    exact Option.noConfusion h
  | succ a ih =>
    intro T k ha h
    simp only [generalSplit] at h
    rcases orElse_eq_some2 h with hb | ⟨_, hrec⟩
    · split at hb
      · rename_i more heq
        split at hb
        · rename_i hlet
          have hk := (Option.some.inj hb).symm
          have hmoreAD : more
              = more.takeWhile isAlphaB
                ++ more.drop (more.takeWhile isAlphaB).length := by
            rw [drop_takeWhile_length]
            exact (List.takeWhile_append_dropWhile _ _).symm
          have hT : T = T.take (a + 1) ++ (46 :: more) := by
            conv_lhs => rw [← List.take_append_drop (a + 1) T]
            rw [heq]
          split at hk
          · rename_i x heq2
            refine ⟨a + 1, more.takeWhile isAlphaB,
              (more.drop (more.takeWhile isAlphaB).length).takeWhile
                (fun c => !(isSpaceB c)),
              (more.drop (more.takeWhile isAlphaB).length).dropWhile
                (fun c => !(isSpaceB c)),
              ?_, ?_, by omega, ha, hlet,
              fun c hc => List.mem_takeWhile_imp hc, Or.inr ⟨?_, ?_, ?_⟩⟩
            · conv_lhs => rw [hT]
              rw [List.takeWhile_append_dropWhile]
              conv_lhs => rw [hmoreAD]
            · rw [hk]
            · rw [heq2, List.takeWhile_cons_of_pos (by decide)]
              exact ⟨_, rfl⟩
            · intro c hc
              have := List.mem_takeWhile_imp hc
              simpa using this
            · rcases dropWhile_head_false
                (fun c => !(isSpaceB c))
                (more.drop (more.takeWhile isAlphaB).length)
                with hnil | ⟨ch, t, hct, hch⟩
              · exact Or.inl hnil
              · exact Or.inr ⟨ch, t, hct, by simpa using hch⟩
          · rename_i hne47
            refine ⟨a + 1, more.takeWhile isAlphaB, [],
              more.drop (more.takeWhile isAlphaB).length,
              ?_, by rw [hk]; simp, by omega, ha, hlet,
              fun c hc => List.mem_takeWhile_imp hc, Or.inl rfl⟩
            conv_lhs => rw [hT]
            rw [List.nil_append]
            conv_lhs => rw [hmoreAD]
        · exact Option.noConfusion hb
      · exact Option.noConfusion hb
    · exact ih (by omega) hrec

/-- Structure of `[\w.-]+\.[a-zA-Z]{2,}(?:/\S*)?`: a non-empty slash-free
non-space host block `B`, then the optional slash part with its whitespace
frontier. -/
lemma generalHost_sound {consumed : Nat} {r : PyStr} {n : Nat}
    (h : generalHost consumed r = some n) :
    ∃ (B sp rest : PyStr),
      r = B ++ (sp ++ rest)
      ∧ n = consumed + (B.length + sp.length)
      ∧ B ≠ []
      ∧ (∀ c ∈ B, c ≠ 47 ∧ isSpaceB c = false)
      ∧ (sp = [] ∨
          ((∃ t, sp = 47 :: t)
           ∧ (∀ c ∈ sp, isSpaceB c = false)
           ∧ (rest = [] ∨ ∃ ch t, rest = ch :: t ∧ isSpaceB ch = true))) := by
  unfold generalHost at h
  rcases Option.map_eq_some'.mp h with ⟨k, hk, hn⟩
  obtain ⟨j, letters, sp, rest, hT, hkeq, hj0, hjle, hl2, hlal, hslash⟩ :=
    generalSplit_sound _ le_rfl hk
  have hjr : j ≤ r.length := by
    have h2 : r.length = (r.takeWhile isHostCharB).length
        + (r.dropWhile isHostCharB).length := by
      conv_lhs =>
        rw [← List.takeWhile_append_dropWhile (p := isHostCharB) (l := r)]
      simp only [List.length_append]
    omega
  refine ⟨r.take j ++ (46 :: letters), sp, rest, ?_, ?_, by simp, ?_, hslash⟩
  · conv_lhs => rw [hT]
    simp [List.append_assoc]
  · have hlb : (r.take j ++ (46 :: letters)).length
        = j + 1 + letters.length := by
      simp [List.length_append, List.length_take]
      omega
    rw [hlb]
    omega
  · intro c hc
    rcases List.mem_append.mp hc with hc | hc
    · have := mem_take_of_le_takeWhile hjle c hc
      exact isHostCharB_props this
    · rcases List.mem_cons.mp hc with rfl | hc
      · exact ⟨by omega, rfl⟩
      · exact isAlphaB_props (hlal c hc)

/-- The `(?:www\.)?` layer of the general pattern. -/
lemma generalWww_sound {c1 c2 : Nat} {r1 : PyStr} {n : Nat}
    (hc : c1 = c2 + 4)
    (h : ((stripPre (pystr "www.") r1).bind (generalHost c1)
        <|> generalHost c2 r1) = some n) :
    ∃ (A sp rest : PyStr),
      r1 = A ++ (sp ++ rest)
      ∧ n = c2 + (A.length + sp.length)
      ∧ A ≠ []
      ∧ (∀ c ∈ A, c ≠ 47 ∧ isSpaceB c = false)
      ∧ (sp = [] ∨
          ((∃ t, sp = 47 :: t)
           ∧ (∀ c ∈ sp, isSpaceB c = false)
           ∧ (rest = [] ∨ ∃ ch t, rest = ch :: t ∧ isSpaceB ch = true))) := by
  rcases orElse_eq_some h with h1 | ⟨_, h2⟩
  · rcases Option.bind_eq_some.mp h1 with ⟨r2, hw, hgh⟩
    obtain ⟨B, sp, rest, hr2, hn, hBne, hBch, hslash⟩ := generalHost_sound hgh
    refine ⟨pystr "www." ++ B, sp, rest, ?_, ?_, by simp [pystr], ?_, hslash⟩
    · rw [stripPre_sound hw, hr2]
      simp [List.append_assoc]
    · rw [List.length_append, show (pystr "www.").length = 4 from rfl]
      omega
    · intro c hcm
      rcases List.mem_append.mp hcm with hcm | hcm
      · exact (by decide : ∀ x ∈ pystr "www.", x ≠ 47 ∧ isSpaceB x = false)
          c hcm
      · exact hBch c hcm
  · obtain ⟨B, sp, rest, hr2, hn, hBne, hBch, hslash⟩ := generalHost_sound h2
    exact ⟨B, sp, rest, hr2, by omega, hBne, hBch, hslash⟩

/-- Soundness of the general matcher: the consumed prefix is a scheme, a
non-empty slash-free host block, and an optional slash part; when the slash
part is present, the text right after the match is empty or whitespace. -/
lemma matchGeneral_sound {s : PyStr} {n : Nat}
    (h : matchGeneralLen s = some n) :
    ∃ (A sp rest : PyStr),
      s = A ++ (sp ++ rest)
      ∧ n = A.length + sp.length
      ∧ (∃ B, (A = pystr "http://" ++ B ∨ A = pystr "https://" ++ B)
          ∧ B ≠ [] ∧ ∀ c ∈ B, c ≠ 47 ∧ isSpaceB c = false)
      ∧ (sp = [] ∨
          ((∃ t, sp = 47 :: t)
           ∧ (∀ c ∈ sp, isSpaceB c = false)
           ∧ (rest = [] ∨ ∃ ch t, rest = ch :: t ∧ isSpaceB ch = true))) := by
  unfold matchGeneralLen at h
  rcases Option.bind_eq_some.mp h with ⟨r0, hs, hb⟩
  rcases orElse_eq_some hb with h1 | ⟨_, h2⟩
  · rcases Option.bind_eq_some.mp h1 with ⟨r1, hss, hw⟩
    obtain ⟨A1, sp, rest, hr1, hn, hA1ne, hA1ch, hslash⟩ :=
      generalWww_sound (by omega) hw
    refine ⟨pystr "https://" ++ A1, sp, rest, ?_, ?_,
      ⟨A1, Or.inr rfl, hA1ne, hA1ch⟩, hslash⟩
    · rw [stripPre_sound hs, stripPre_sound hss, hr1, ← scheme_merge_s]
      simp [List.append_assoc]
    · rw [List.length_append, show (pystr "https://").length = 8 from rfl]
      omega
  · rcases Option.bind_eq_some.mp h2 with ⟨r1, hss, hw⟩
    obtain ⟨A1, sp, rest, hr1, hn, hA1ne, hA1ch, hslash⟩ :=
      generalWww_sound (by omega) hw
    refine ⟨pystr "http://" ++ A1, sp, rest, ?_, ?_,
      ⟨A1, Or.inl rfl, hA1ne, hA1ch⟩, hslash⟩
    · rw [stripPre_sound hs, stripPre_sound hss, hr1, ← scheme_merge_plain]
      simp [List.append_assoc]
    · rw [List.length_append, show (pystr "http://").length = 7 from rfl]
      omega

/-- Every string produced by the general `findall` scan occurs in the
scanned string at a position where the general matcher accepts exactly it. -/
lemma findallGeneralAux_pos : ∀ (fuel : Nat) (s u : PyStr),
    u ∈ findallGeneralAux fuel s →
    ∃ x y, s = x ++ (u ++ y) ∧ matchGeneralLen (u ++ y) = some u.length := by
  intro fuel
  induction fuel with
  | zero => intro s u h; simp [findallGeneralAux] at h
  | succ f ih =>
    intro s u h
    cases s with
    | nil => simp [findallGeneralAux] at h
    | cons c rest =>
      simp only [findallGeneralAux] at h
      cases hm : matchGeneralLen (c :: rest) with
      | some n =>
        rw [hm] at h
        dsimp only at h
        have hnle : n ≤ (c :: rest).length := by
          obtain ⟨A, sp, rest0, hs, hn, _, _⟩ := matchGeneral_sound hm
          rw [hs]
          simp only [List.length_append]
          omega
        rcases List.mem_cons.mp h with rfl | hmem
        · refine ⟨[], (c :: rest).drop n, ?_, ?_⟩
          · rw [List.nil_append, List.take_append_drop]
          · rw [List.take_append_drop]
            rw [hm, List.length_take]
            congr 1
            omega
        · obtain ⟨x, y, hxy, hmt⟩ := ih _ u hmem
          exact ⟨(c :: rest).take (max n 1) ++ x, y, by
            conv_lhs => rw [← List.take_append_drop (max n 1) (c :: rest)]
            rw [hxy, List.append_assoc], hmt⟩
      | none =>
        rw [hm] at h
        obtain ⟨x, y, hxy, hmt⟩ := ih _ u h
        exact ⟨c :: x, y, by rw [hxy]; rfl, hmt⟩

/-- The render of a well-formed Twitter match contains exactly five slashes
(two in the scheme, one before the user, two around `status`). -/
lemma count47_render {m : TwitterMatch} (hwf : m.wf) :
    m.render.count 47 = 5 := by
  obtain ⟨a, ww, ht, U, G⟩ := m
  obtain ⟨hu, hua, hd, hda⟩ := hwf
  have hU : U.count 47 = 0 :=
    List.count_eq_zero.mpr fun hmem => notSlashSpaceB_ne47 (hua 47 hmem) rfl
  have hG : G.count 47 = 0 :=
    List.count_eq_zero.mpr fun hmem => by
      have := hda 47 hmem
      simp [isDigitB] at this
  unfold TwitterMatch.render
  cases a <;> cases ww <;> cases ht <;>
    simp [schemeTail, wwwLit, hostLit, List.count_append, List.count_cons,
      hU, hG,
      show (pystr "http").count 47 = 0 from rfl,
      show (pystr "s://").count 47 = 2 from rfl,
      show (pystr "://").count 47 = 2 from rfl,
      show (pystr "www.").count 47 = 0 from rfl,
      show (pystr "twitter.com").count 47 = 0 from rfl,
      show (pystr "x.com").count 47 = 0 from rfl,
      show (pystr "/status/").count 47 = 2 from rfl]

/-- The containment clause of C3: a general `findall` result that contains a
Twitter `findall` result as a substring fails the exclusion test and is
dropped from the general URL list. -/
lemma general_containing_twitter_excluded {msg g t : PyStr}
    (hg : g ∈ findallGeneral msg) (htf : t ∈ findallTwitter msg)
    (hcont : containsSub t g = true) : g ∉ (extract_urls msg).2 := by
  intro hmem
  obtain ⟨mt, hmtwf, rfl⟩ := findallTwitter_mem htf
  obtain ⟨x, y, hmsg, hglen⟩ := findallGeneralAux_pos msg.length msg g hg
  obtain ⟨A, sp, rest0, hsY, hn, ⟨B, hAB, hBne, hBch⟩, hslash⟩ :=
    matchGeneral_sound hglen
  have hga : g = A ++ sp ∧ y = rest0 := by
    have h1 : g ++ y = (A ++ sp) ++ rest0 := by
      rw [hsY]
      simp [List.append_assoc]
    have h2 : g.length = (A ++ sp).length := by
      rw [List.length_append]
      exact hn
    exact List.append_inj h1 h2
  obtain ⟨hgAsp, rfl⟩ := hga
  have hspne : sp ≠ [] := by
    intro hnil
    have hcg : g.count 47 = 2 := by
      rw [hgAsp, hnil, List.append_nil]
      rcases hAB with hA | hA <;>
        rw [hA, List.count_append,
          List.count_eq_zero.mpr fun hmem2 => (hBch 47 hmem2).1 rfl] <;>
        rfl
    obtain ⟨x1, y1, hd1⟩ := containsSub_decomp hcont
    have hsum : g.count 47
        = x1.count 47 + (mt.render.count 47 + y1.count 47) := by
      rw [hd1]
      simp only [List.count_append]
    rw [count47_render hmtwf] at hsum
    omega
  rcases hslash with hnil | ⟨⟨spt, hsp47⟩, hspns, hfrontY⟩
  · exact absurd hnil hspne
  obtain ⟨x1, y1, hd1⟩ := containsSub_decomp hcont
  have hdg : g.drop x1.length = mt.render ++ y1 := by
    rw [hd1]
    exact List.drop_left _ _
  obtain ⟨mmx, hmmx⟩ := matchTwitter_append mt hmtwf y1
  obtain ⟨b, hb⟩ :=
    searchTwitter_of_match_at x1.length (by rw [hdg]; exact hmmx)
  obtain ⟨P, mP, hmP, hbtake⟩ := searchTwitter_sound hb
  obtain ⟨⟨restg, hrestg, hfrg⟩, hmPwf⟩ := matchTwitter_sound hmP
  have hbval : b = mP.render := by
    rw [hbtake, hrestg]
    exact List.take_left _ _
  have hPle : P ≤ g.length := by
    by_contra hgt
    push_neg at hgt
    rw [List.drop_eq_nil_of_le (le_of_lt hgt), matchTwitterAt_nil] at hmP
    exact Option.noConfusion hmP
  have hmsgdrop : msg.drop (x.length + P) = mP.render ++ (restg ++ y) := by
    rw [hmsg, drop_append_ge (by omega : x.length ≤ x.length + P),
      show x.length + P - x.length = P from by omega,
      drop_append_le hPle, hrestg, List.append_assoc]
  have hfront2 : digitFrontier (restg ++ y) := by
    rcases hfrg with rfl | ⟨ch, tt, rfl, hch⟩
    · simp only [List.nil_append]
      rcases hfrontY with rfl | ⟨ch, tt, rfl, hch⟩
      · exact Or.inl rfl
      · exact Or.inr ⟨ch, tt, rfl, isSpaceB_not_digit hch⟩
    · exact Or.inr ⟨ch, tt ++ y, by simp, hch⟩
  have hmsgmatch : matchTwitterAt (msg.drop (x.length + P)) = some mP := by
    rw [hmsgdrop]
    exact matchTwitter_complete_ext hmPwf hfront2
  have hnc : ∀ Q mQ, Q < x.length + P →
      matchTwitterAt (msg.drop Q) = some mQ →
      Q + mQ.render.length ≤ x.length + P := by
    intro Q mQ hQ hmQ
    by_contra hgt
    push_neg at hgt
    obtain ⟨⟨rQ, hrQ, _⟩, hQwf⟩ := matchTwitter_sound hmQ
    have hdd : (msg.drop Q).drop (x.length + P - Q)
        = msg.drop (x.length + P) := by
      rw [List.drop_drop]
      congr 1
      omega
    rw [← hdd, hrQ,
      matchTwitterAt_drop_inside hQwf _ rQ (by omega) (by omega)]
      at hmsgmatch
    exact Option.noConfusion hmsgmatch
  have hbmem : mP.render ∈ findallTwitter msg :=
    findallTwitterAux_complete msg.length msg le_rfl (x.length + P) mP
      hmsgmatch hnc
  have hexc : excludedTwitter (findallTwitter msg) g = true := by
    rw [excludedTwitter_iff]
    refine ⟨?_, mP.render, by rw [hb, hbval], hbmem⟩
    rcases render_contains_host mt with hh | hh
    · exact Or.inl (containsSub_trans hh hcont)
    · exact Or.inr (containsSub_trans hh hcont)
  rw [extract_urls_snd] at hmem
  have hpred := (List.mem_filter.mp hmem).2
  rw [hexc] at hpred
  simp at hpred

/-- **C3.** For every message: (i) the Twitter URL list and the filtered
general URL list computed by `process_message` are disjoint; (ii) any
general match that contains (as a substring) a URL already found by the
Twitter pass is excluded from the general list; (iii) a general match is
excluded exactly when it mentions `twitter.com`/`x.com` and the
Twitter-pattern search inside it finds a base URL that the Twitter pass
already found. -/
theorem C3_twitter_general_disjoint (msg : PyStr) :
    (∀ u ∈ (extract_urls msg).2, u ∉ (extract_urls msg).1)
    ∧ (∀ g ∈ findallGeneral msg, ∀ t ∈ findallTwitter msg,
        containsSub t g = true → g ∉ (extract_urls msg).2)
    ∧ (∀ g ∈ findallGeneral msg,
        (g ∉ (extract_urls msg).2 ↔
          ((containsSub (pystr "twitter.com") g = true
            ∨ containsSub (pystr "x.com") g = true)
           ∧ ∃ b, searchTwitter g = some b ∧ b ∈ findallTwitter msg))) := by
  refine ⟨?_, ?_, ?_⟩
  · intro u hu hutw
    rw [extract_urls_snd] at hu
    rw [extract_urls_fst] at hutw
    have hpred := (List.mem_filter.mp hu).2
    rw [excluded_of_mem_findall hutw] at hpred
    simp at hpred
  · intro g hg t htf hc
    exact general_containing_twitter_excluded hg htf hc
  · intro g hg
    rw [extract_urls_snd, ← excludedTwitter_iff (findallTwitter msg) g]
    constructor
    · intro hnot
      by_contra hexc
      exact hnot (List.mem_filter.mpr ⟨hg, by
        simp [Bool.not_eq_true] at hexc
        simp [hexc]⟩)
    · intro hexc hmem
      have hpred := (List.mem_filter.mp hmem).2
      rw [hexc] at hpred
      simp at hpred

/-- Witness for C3 at a concrete message holding one tweet URL (with query
parameters) and one ordinary URL. -/
theorem C3_twitter_general_disjoint_witness :
    (pystr "https://example.com/page" ∈
      (extract_urls (pystr
        "see https://x.com/ab/status/12?q=1 or https://example.com/page")).2)
    ∧ (pystr "https://example.com/page" ∉
      (extract_urls (pystr
        "see https://x.com/ab/status/12?q=1 or https://example.com/page")).1)
    ∧ (pystr "https://x.com/ab/status/12?q=1" ∉
      (extract_urls (pystr
        "see https://x.com/ab/status/12?q=1 or https://example.com/page")).2)
    ∧ ((pystr "https://x.com/ab/status/12?q=1" ∉
      (extract_urls (pystr
        "see https://x.com/ab/status/12?q=1 or https://example.com/page")).2)
      ↔ ((containsSub (pystr "twitter.com")
            (pystr "https://x.com/ab/status/12?q=1") = true
          ∨ containsSub (pystr "x.com")
            (pystr "https://x.com/ab/status/12?q=1") = true)
         ∧ ∃ b, searchTwitter (pystr "https://x.com/ab/status/12?q=1")
              = some b
            ∧ b ∈ findallTwitter (pystr
              "see https://x.com/ab/status/12?q=1 or https://example.com/page"))) :=
  ⟨by decide,
   (C3_twitter_general_disjoint _).1 (pystr "https://example.com/page")
     (by decide),
   (C3_twitter_general_disjoint _).2.1
     (pystr "https://x.com/ab/status/12?q=1") (by decide)
     (pystr "https://x.com/ab/status/12") (by decide) (by decide),
   (C3_twitter_general_disjoint _).2.2
     (pystr "https://x.com/ab/status/12?q=1")
     (by decide)⟩

/-!
## Python values and dictionaries

Used for the dictionaries the handlers pass around (`tweet_data`,
extraction results, Notion property payloads).
-/

inductive PyVal where
  | noneV
  | boolV (b : Bool)
  | intV (n : Int)
  | strV (s : PyStr)
  | listV (l : List PyVal)
  | dictV (d : List (PyStr × PyVal))

abbrev PyDict := List (PyStr × PyVal)

/-- Python `d[k]` lookup (first binding wins; dict keys are unique anyway). -/
def dictLookup (k : PyStr) : PyDict → Option PyVal
  | [] => Option.none
  | (k', v) :: t => if k = k' then some v else dictLookup k t

/-- Python `d.get(k, default)`. -/
def dictGetD (d : PyDict) (k : PyStr) (default : PyVal) : PyVal :=
  (dictLookup k d).getD default

/-- Python `d[k] = v` (replace an existing binding, else append). -/
def dictSet : PyDict → PyStr → PyVal → PyDict
  | [], k, v => [(k, v)]
  | (k', v') :: t, k, v =>
    if k' = k then (k', v) :: t else (k', v') :: dictSet t k v

/-!
## `openai_handler.extract_with_playwright` (lines 86–319)

The browser, the page and the DOM are oracles in `PWEnv`:

* `initOk` — whether `init_playwright` succeeds;
* `nav i` — whether navigation attempt `i` yields a response with
  `response and response.ok` (an attempt that raises counts as `false`:
  the `except` branch sleeps and retries exactly like a bad response);
* `contentSel` — the `inner_text` of the first content selector that
  matches, if any (the selector loop swallows selector errors);
* `authorSel`, `timeSel` — likewise for the author and timestamp probes.
-/

structure PWEnv where
  initOk : Bool
  nav : Nat → Bool
  contentSel : Option PyStr
  authorSel : Option PyStr
  timeSel : Option PyStr

/-- The retry loop `for _ in range(k)` around `page.goto`, starting at
attempt index `i`: returns (number of attempts actually made, success). -/
def navLoop (nav : Nat → Bool) : Nat → Nat → Nat × Bool
  | _, 0 => (0, false)
  | i, k + 1 =>
    if nav i then (1, true)
    else
      let r := navLoop nav (i + 1) k
      (r.1 + 1, r.2)

/-- Python `x or default` for an optional string (`None` and `""` are
falsy). -/
def pyOrStr (x : Option PyStr) (default : PyStr) : PyStr :=
  match x with
  | some s => if s.isEmpty then default else s
  | Option.none => default

/-- The six-key result dictionary every branch of tweet extraction builds:
`{"content", "author", "timestamp", "images", "stats", "url"}`. -/
def mkTweetDict (content author timestamp : PyStr) (images : List PyStr)
    (stats : List (PyStr × PyStr)) (url : PyStr) : PyDict :=
  [(pystr "content", PyVal.strV content),
   (pystr "author", PyVal.strV author),
   (pystr "timestamp", PyVal.strV timestamp),
   (pystr "images", PyVal.listV (images.map PyVal.strV)),
   (pystr "stats", PyVal.dictV (stats.map fun p => (p.1, PyVal.strV p.2))),
   (pystr "url", PyVal.strV url)]

/-- `extract_with_playwright`: result, number of navigation attempts made,
and whether the content selectors were probed. -/
def extract_with_playwright (env : PWEnv) (url : PyStr) :
    Option PyDict × Nat × Bool :=
  if env.initOk = false then (Option.none, 0, false)
  else if (navLoop env.nav 0 3).2 = false then
    (Option.none, (navLoop env.nav 0 3).1, false)
  else
    match env.contentSel with
    | Option.none => (Option.none, (navLoop env.nav 0 3).1, true)
    | some tweet_content =>
      (some (mkTweetDict tweet_content
          (pyOrStr env.authorSel (pystr "Unknown"))
          (pyOrStr env.timeSel []) [] [] url),
        (navLoop env.nav 0 3).1, true)

/-- **C7.** In `extract_with_playwright`, navigation is attempted at most 3
times; when all 3 attempts fail the function returns `None` without probing
any content selector; and the loop stops at the first attempt that yields an
ok response (making exactly `k+1` attempts when attempt `k` is the first
success). -/
theorem C7_extract_with_playwright_nav (env : PWEnv) (url : PyStr) :
    (extract_with_playwright env url).2.1 ≤ 3
    ∧ ((∀ i, i < 3 → env.nav i = false) →
        (extract_with_playwright env url).1 = Option.none
        ∧ (extract_with_playwright env url).2.2 = false)
    ∧ (∀ k, k < 3 → env.initOk = true → env.nav k = true →
        (∀ j, j < k → env.nav j = false) →
        (extract_with_playwright env url).2.1 = k + 1) := by
  have hle : ∀ k i, (navLoop env.nav i k).1 ≤ k := by
    intro k
    induction k with
    | zero => intro i; simp [navLoop]
    | succ k ih =>
      intro i
      by_cases h : env.nav i <;> simp [navLoop, h]
      exact ih (i + 1)
  have hatt : (extract_with_playwright env url).2.1 =
      (if env.initOk = false then 0 else (navLoop env.nav 0 3).1) := by
    unfold extract_with_playwright
    by_cases hinit : env.initOk = false
    · simp [hinit]
    · rcases hnr : navLoop env.nav 0 3 with ⟨att, succ⟩
      cases succ
      · simp [hinit, hnr]
      · cases env.contentSel <;> simp [hinit, hnr]
  refine ⟨?_, ?_, ?_⟩
  · rw [hatt]
    by_cases hinit : env.initOk = false
    · simp [hinit]
    · simpa [hinit] using hle 3 0
  · intro hall
    by_cases hinit : env.initOk = false
    · constructor <;> simp [extract_with_playwright, hinit]
    · have h0 := hall 0 (by omega)
      have h1 := hall 1 (by omega)
      have h2 := hall 2 (by omega)
      constructor <;>
        simp [extract_with_playwright, hinit, navLoop, h0, h1, h2]
  · intro k hk hinitT hnavk hprev
    rw [hatt, if_neg (by simp [hinitT])]
    interval_cases k
    · simp [navLoop, hnavk]
    · have h0 := hprev 0 (by omega)
      simp [navLoop, h0, hnavk]
    · have h0 := hprev 0 (by omega)
      have h1 := hprev 1 (by omega)
      simp [navLoop, h0, h1, hnavk]

/-- Witness for C7: with success on the second attempt exactly 2 attempts are
made; with no success the result is `None`. -/
theorem C7_extract_with_playwright_nav_witness :
    (extract_with_playwright
      ⟨true, fun i => decide (i = 1), some (pystr "tweet"), Option.none,
        Option.none⟩ (pystr "https://x.com/a/status/1")).2.1 = 2
    ∧ (extract_with_playwright
      ⟨true, fun _ => false, some (pystr "tweet"), Option.none,
        Option.none⟩ (pystr "https://x.com/a/status/1")).1 = Option.none := by
  constructor
  · exact (C7_extract_with_playwright_nav _ _).2.2 1 (by omega) rfl rfl
      (fun j hj => by interval_cases j; rfl)
  · exact ((C7_extract_with_playwright_nav _ _).2.1 (fun i _ => rfl)).1

/-!
## `openai_handler.extract_tweet_content` (lines 321–454)

The scraping strategies are oracles:

* the Playwright attempt is the `extract_with_playwright` model above;
* `nitterPage inst` is `some page` exactly when the GET against instance
  `inst` returns status 200 with a `.tweet-content` element (a request that
  raises, a non-200 status, or a page without the element all make the loop
  move on, i.e. `none`); the page's scraped fields are oracle data;
* `direct` is `some text` exactly when the direct Twitter/X GET returns 200
  and some content selector matches, giving that element's text.
-/

structure NitterPage where
  content : PyStr
  author : Option PyStr
  timestamp : Option PyStr
  images : List PyStr
  stats : List (PyStr × PyStr)

structure ScrapeEnv where
  pw : PWEnv
  nitterPage : PyStr → Option NitterPage
  direct : Option PyStr

/-- The strategies of the fallback chain, in order. -/
inductive Strategy where
  | playwright
  | nitter (host : PyStr)
  | direct
deriving DecidableEq

/-- The six Nitter instances, in the order the code lists them. -/
def nitter_instances : List PyStr :=
  [pystr "nitter.net", pystr "nitter.kavin.rocks", pystr "nitter.unixfox.eu",
   pystr "nitter.42l.fr", pystr "nitter.pussthecat.org",
   pystr "nitter.nixnet.services"]

/-- The dictionary built from a successful Nitter extraction. -/
def nitterDict (p : NitterPage) (url : PyStr) : PyDict :=
  mkTweetDict (pyStrip p.content)
    (match p.author with
     | some a => pyStrip a
     | Option.none => pystr "Unknown")
    (match p.timestamp with
     | some t => pyStrip t
     | Option.none => [])
    p.images p.stats url

/-- The dictionary built from a successful direct Twitter/X extraction. -/
def directDict (content url : PyStr) : PyDict :=
  mkTweetDict (pyStrip content) (pystr "Unknown") [] [] [] url

/-- The placeholder dictionary returned when every strategy failed. -/
def placeholderDict (url : PyStr) : PyDict :=
  mkTweetDict
    (pystr "Could not extract tweet content. Twitter may have blocked the request.")
    (pystr "Unknown") [] [] [] url

/-- The `for instance in nitter_instances` loop: first success wins; failures
continue with the next instance.  Also returns the list of instances
consulted, as `Strategy` values. -/
def tryNitters (f : PyStr → Option NitterPage) (url : PyStr) :
    List PyStr → Option PyDict × List Strategy
  | [] => (Option.none, [])
  | inst :: rest =>
    match f inst with
    | some page => (some (nitterDict page url), [Strategy.nitter inst])
    | Option.none =>
      let r := tryNitters f url rest
      (r.1, Strategy.nitter inst :: r.2)

/-- `extract_tweet_content`: Playwright first, then the Nitter instances in
order, then the direct fetch, then the placeholder.  Besides the resulting
dictionary it returns the trace of strategies consulted, in order. -/
def extract_tweet_content (env : ScrapeEnv) (url : PyStr) :
    PyDict × List Strategy :=
  match (extract_with_playwright env.pw url).1 with
  | some d => (d, [Strategy.playwright])
  | Option.none =>
    match tryNitters env.nitterPage url nitter_instances with
    | (some d, tr) => (d, Strategy.playwright :: tr)
    | (Option.none, tr) =>
      match env.direct with
      | some c =>
        (directDict c url, Strategy.playwright :: (tr ++ [Strategy.direct]))
      | Option.none =>
        (placeholderDict url,
          Strategy.playwright :: (tr ++ [Strategy.direct]))

lemma tryNitters_first (f : PyStr → Option NitterPage) (url : PyStr) :
    ∀ (pre : List PyStr) (inst : PyStr) (post : List PyStr)
      (page : NitterPage),
      (∀ x ∈ pre, f x = Option.none) → f inst = some page →
      tryNitters f url (pre ++ inst :: post) =
        (some (nitterDict page url),
          pre.map Strategy.nitter ++ [Strategy.nitter inst]) := by
  intro pre
  induction pre with
  | nil =>
    intro inst post page _ hinst
    simp [tryNitters, hinst]
  | cons x t ih =>
    intro inst post page hpre hinst
    have hx : f x = Option.none := hpre x (List.mem_cons_self x t)
    simp only [List.cons_append, tryNitters, hx, List.append_eq]
    rw [ih inst post page (fun y hy => hpre y (List.mem_cons_of_mem x hy))
      hinst]
    rfl

lemma tryNitters_none (f : PyStr → Option NitterPage) (url : PyStr) :
    ∀ l : List PyStr, (∀ x ∈ l, f x = Option.none) →
      tryNitters f url l = (Option.none, l.map Strategy.nitter) := by
  intro l
  induction l with
  | nil => intro _; rfl
  | cons x t ih =>
    intro hall
    have hx : f x = Option.none := hall x (List.mem_cons_self x t)
    simp only [tryNitters, hx]
    rw [ih fun y hy => hall y (List.mem_cons_of_mem x hy)]
    rfl

/-- **C2.** `extract_tweet_content` consults its strategies strictly in
sequence — Playwright, then the six Nitter instances in listed order, then
the direct fetch — and returns the result of the first one that succeeds;
the consultation trace shows that a later strategy is reached only when all
earlier ones failed. -/
theorem C2_extract_tweet_content_order (env : ScrapeEnv) (url : PyStr) :
    (∀ d, (extract_with_playwright env.pw url).1 = some d →
        extract_tweet_content env url = (d, [Strategy.playwright]))
    ∧ ((extract_with_playwright env.pw url).1 = Option.none →
        ∀ pre inst post page,
          nitter_instances = pre ++ inst :: post →
          (∀ x ∈ pre, env.nitterPage x = Option.none) →
          env.nitterPage inst = some page →
          extract_tweet_content env url =
            (nitterDict page url,
              Strategy.playwright ::
                (pre.map Strategy.nitter ++ [Strategy.nitter inst])))
    ∧ ((extract_with_playwright env.pw url).1 = Option.none →
        (∀ x ∈ nitter_instances, env.nitterPage x = Option.none) →
        ∀ c, env.direct = some c →
          extract_tweet_content env url =
            (directDict c url,
              Strategy.playwright ::
                (nitter_instances.map Strategy.nitter ++ [Strategy.direct])))
    ∧ ((extract_with_playwright env.pw url).1 = Option.none →
        (∀ x ∈ nitter_instances, env.nitterPage x = Option.none) →
        env.direct = Option.none →
        extract_tweet_content env url =
          (placeholderDict url,
            Strategy.playwright ::
              (nitter_instances.map Strategy.nitter ++ [Strategy.direct]))) := by
  refine ⟨?_, ?_, ?_, ?_⟩
  · intro d hd
    unfold extract_tweet_content
    rw [hd]
  · intro hpw pre inst post page hsplit hpre hinst
    unfold extract_tweet_content
    rw [hpw, hsplit,
      tryNitters_first env.nitterPage url pre inst post page hpre hinst]
  · intro hpw hall c hc
    unfold extract_tweet_content
    rw [hpw, tryNitters_none env.nitterPage url _ hall, hc]
  · intro hpw hall hdir
    unfold extract_tweet_content
    rw [hpw, tryNitters_none env.nitterPage url _ hall, hdir]

/-- A Playwright environment in which initialisation succeeds but every
navigation attempt fails. -/
def pwEnvAllFail : PWEnv :=
  ⟨true, fun _ => false, Option.none, Option.none, Option.none⟩

/-- A Nitter page used by the witnesses. -/
def nitterPageW : NitterPage :=
  ⟨pystr " hello world ", some (pystr "Bob"), Option.none, [], []⟩

/-- A scraping environment where Playwright fails and the second Nitter
instance succeeds. -/
def scrapeEnvW : ScrapeEnv :=
  ⟨pwEnvAllFail,
   fun inst =>
     if inst = pystr "nitter.kavin.rocks" then some nitterPageW
     else Option.none,
   Option.none⟩

/-- Witness for C2 at `scrapeEnvW`: the first instance is consulted and
fails, the second succeeds and its page is returned. -/
theorem C2_extract_tweet_content_order_witness :
    extract_tweet_content scrapeEnvW (pystr "https://x.com/a/status/1") =
      (nitterDict nitterPageW (pystr "https://x.com/a/status/1"),
        [Strategy.playwright, Strategy.nitter (pystr "nitter.net"),
          Strategy.nitter (pystr "nitter.kavin.rocks")]) :=
  (C2_extract_tweet_content_order scrapeEnvW
      (pystr "https://x.com/a/status/1")).2.1 rfl
    [pystr "nitter.net"] (pystr "nitter.kavin.rocks")
    [pystr "nitter.unixfox.eu", pystr "nitter.42l.fr",
      pystr "nitter.pussthecat.org", pystr "nitter.nixnet.services"]
    nitterPageW rfl
    (fun x hx => by
      have hx' : x = pystr "nitter.net" := by simpa using hx
      subst hx'
      rfl)
    rfl

/-- The six keys of every tweet-extraction result. -/
def tweetDictKeys : List PyStr :=
  [pystr "content", pystr "author", pystr "timestamp", pystr "images",
   pystr "stats", pystr "url"]

lemma mkTweetDict_keys (c a t : PyStr) (im : List PyStr)
    (st : List (PyStr × PyStr)) (u : PyStr) :
    (mkTweetDict c a t im st u).map Prod.fst = tweetDictKeys := rfl

lemma mkTweetDict_url (c a t : PyStr) (im : List PyStr)
    (st : List (PyStr × PyStr)) (u : PyStr) :
    dictLookup (pystr "url") (mkTweetDict c a t im st u)
      = some (PyVal.strV u) := by
  unfold mkTweetDict
  rw [dictLookup, if_neg (by decide), dictLookup, if_neg (by decide),
    dictLookup, if_neg (by decide), dictLookup, if_neg (by decide),
    dictLookup, if_neg (by decide), dictLookup, if_pos rfl]

lemma extract_with_playwright_shape {e : PWEnv} {u : PyStr} {d : PyDict}
    (h : (extract_with_playwright e u).1 = some d) :
    ∃ c a t, d = mkTweetDict c a t [] [] u := by
  unfold extract_with_playwright at h
  by_cases hinit : e.initOk = false
  · rw [if_pos hinit] at h; cases h
  · rw [if_neg hinit] at h
    by_cases hnav : (navLoop e.nav 0 3).2 = false
    · rw [if_pos hnav] at h; cases h
    · rw [if_neg hnav] at h
      cases hc : e.contentSel with
      | none => rw [hc] at h; cases h
      | some tc =>
        rw [hc] at h
        exact ⟨tc, _, _, (Option.some.inj h).symm⟩

lemma tryNitters_some_shape {f : PyStr → Option NitterPage} {url : PyStr} :
    ∀ {l : List PyStr} {d : PyDict} {tr : List Strategy},
      tryNitters f url l = (some d, tr) → ∃ p, d = nitterDict p url := by
  intro l
  induction l with
  | nil => intro d tr h; cases h
  | cons inst rest ih =>
    intro d tr h
    unfold tryNitters at h
    cases hf : f inst with
    | some page =>
      rw [hf] at h
      have h1 : some (nitterDict page url) = some d := congrArg Prod.fst h
      exact ⟨page, (Option.some.inj h1).symm⟩
    | none =>
      rw [hf] at h
      dsimp only at h
      have h1 : (tryNitters f url rest).1 = some d := congrArg Prod.fst h
      exact ih (show tryNitters f url rest =
        (some d, (tryNitters f url rest).2) from Prod.ext h1 rfl)

/-- **C9.** `extract_tweet_content` always returns a dictionary (never
`None`): its keys are exactly the six keys `content`, `author`, `timestamp`,
`images`, `stats`, `url`; the `url` entry is the requested URL; and when
every strategy fails the placeholder dictionary with default values is
returned. -/
theorem C9_extract_tweet_content_total (env : ScrapeEnv) (url : PyStr) :
    (extract_tweet_content env url).1.map Prod.fst = tweetDictKeys
    ∧ dictLookup (pystr "url") (extract_tweet_content env url).1
        = some (PyVal.strV url)
    ∧ (((extract_with_playwright env.pw url).1 = Option.none
        ∧ (∀ x ∈ nitter_instances, env.nitterPage x = Option.none)
        ∧ env.direct = Option.none) →
        (extract_tweet_content env url).1 = placeholderDict url) := by
  have hshape : ∃ c a t im st,
      (extract_tweet_content env url).1 = mkTweetDict c a t im st url := by
    unfold extract_tweet_content
    cases hpw : (extract_with_playwright env.pw url).1 with
    | some d =>
      obtain ⟨c, a, t, hd⟩ := extract_with_playwright_shape hpw
      exact ⟨c, a, t, [], [], hd⟩
    | none =>
      rcases htn : tryNitters env.nitterPage url nitter_instances
        with ⟨od, tr⟩
      cases od with
      | some d =>
        obtain ⟨p, hd⟩ := tryNitters_some_shape htn
        exact ⟨_, _, _, _, _, hd⟩
      | none =>
        cases hdir : env.direct with
        | some c => exact ⟨_, _, _, _, _, rfl⟩
        | none => exact ⟨_, _, _, _, _, rfl⟩
  obtain ⟨c, a, t, im, st, hmk⟩ := hshape
  refine ⟨by rw [hmk]; exact mkTweetDict_keys c a t im st url,
    by rw [hmk]; exact mkTweetDict_url c a t im st url, ?_⟩
  rintro ⟨hpw, hall, hdir⟩
  unfold extract_tweet_content
  rw [hpw, tryNitters_none env.nitterPage url _ hall, hdir]

/-- A scraping environment in which every strategy fails. -/
def scrapeEnvAllFail : ScrapeEnv :=
  ⟨pwEnvAllFail, fun _ => Option.none, Option.none⟩

/-- Witness for C9: with every strategy failing, the result is the
placeholder dictionary. -/
theorem C9_extract_tweet_content_total_witness :
    (extract_tweet_content scrapeEnvAllFail
      (pystr "https://x.com/a/status/1")).1 =
      placeholderDict (pystr "https://x.com/a/status/1") :=
  (C9_extract_tweet_content_total scrapeEnvAllFail
      (pystr "https://x.com/a/status/1")).2.2
    ⟨rfl, fun _ _ => rfl, rfl⟩

/-!
## `notion_handler.py`: the Notion API wrappers

The Notion client is an oracle (`NotionEnv`).  Python exceptions are
modelled with `Except PyErr`: each translated function body is an `Except`
computation whose `try/except` wrappers appear as explicit `match`es.
`str()` rendering of non-scalar values is simplified (no claim depends on
the exact rendering of a list or dict inside an f-string).
-/

inductive PyErr where
  | keyError
  | typeError
  | valueError
  | attributeError
  | jsonDecodeError
  | apiError
deriving DecidableEq

/-- `d[k]`, raising `KeyError` when missing. -/
def dictIndexE (d : PyDict) (k : PyStr) : Except PyErr PyVal :=
  match dictLookup k d with
  | some v => Except.ok v
  | Option.none => Except.error PyErr.keyError

/-- Python truthiness. -/
def pyTruthy : PyVal → Bool
  | PyVal.noneV => false
  | PyVal.boolV b => b
  | PyVal.intV n => decide (n ≠ 0)
  | PyVal.strV s => !s.isEmpty
  | PyVal.listV l => !l.isEmpty
  | PyVal.dictV d => !d.isEmpty

/-- Use a value as a string (e.g. to call `.lower()` on it), raising
`AttributeError` otherwise. -/
def asStrE : PyVal → Except PyErr PyStr
  | PyVal.strV s => Except.ok s
  | _ => Except.error PyErr.attributeError

/-- Use a value as a dict (e.g. to call `.get` on it), raising
`AttributeError` otherwise. -/
def asDictE : PyVal → Except PyErr PyDict
  | PyVal.dictV d => Except.ok d
  | _ => Except.error PyErr.attributeError

/-- Decimal digits of a natural number. -/
def natToStr (n : Nat) : PyStr := (Nat.toDigits 10 n).map Char.toNat

/-- Decimal rendering of an integer. -/
def intToStr (n : Int) : PyStr :=
  if n < 0 then 45 :: natToStr n.natAbs else natToStr n.natAbs

/-- `str(v)` (list/dict renderings simplified; no claim depends on them). -/
def pyStrOf : PyVal → PyStr
  | PyVal.strV s => s
  | PyVal.noneV => pystr "None"
  | PyVal.boolV b => if b then pystr "True" else pystr "False"
  | PyVal.intV n => intToStr n
  | PyVal.listV _ => pystr "[…]"
  | PyVal.dictV _ => pystr "\x7b…\x7d"

/-- Value of a run of decimal digits. -/
def digitsToNat (ds : PyStr) : Nat :=
  ds.foldl (fun acc c => acc * 10 + (c - 48)) 0

/-- `int(s)` for a string: optional sign, then digits. -/
def parseIntStr (s : PyStr) : Option Int :=
  match pyStrip s with
  | 45 :: ds =>
    if ds ≠ [] ∧ ds.all isDigitB then some (-(digitsToNat ds : Int))
    else Option.none
  | ds =>
    if ds ≠ [] ∧ ds.all isDigitB then some (digitsToNat ds : Int)
    else Option.none

/-- `int(v)`, raising `ValueError`/`TypeError` like Python. -/
def pyIntE : PyVal → Except PyErr Int
  | PyVal.intV n => Except.ok n
  | PyVal.boolV b => Except.ok (if b then 1 else 0)
  | PyVal.strV s =>
    match parseIntStr s with
    | some n => Except.ok n
    | Option.none => Except.error PyErr.valueError
  | _ => Except.error PyErr.typeError

/-- `v[:n]` — slicing is defined on strings and lists only. -/
def pySliceE (v : PyVal) (n : Nat) : Except PyErr PyVal :=
  match v with
  | PyVal.strV s => Except.ok (PyVal.strV (s.take n))
  | PyVal.listV l => Except.ok (PyVal.listV (l.take n))
  | _ => Except.error PyErr.typeError

/-- A Notion property payload, as built by the handlers. -/
inductive NotionProp where
  | titleP (content : PyStr)
  | urlP (u : PyStr)
  | selectP (name : PyVal)
  | richTextP (content : PyVal)
  | numberP (n : Int)

/-- Lookup in a property list. -/
def lookupProp (k : PyStr) : List (PyStr × NotionProp) → Option NotionProp
  | [] => Option.none
  | (k', v) :: t => if k = k' then some v else lookupProp k t

/-- `databases.retrieve` result: the property name ↦ property type map. -/
structure DbInfo where
  properties : List (PyStr × PyStr)
deriving DecidableEq

def lookupStr (k : PyStr) : List (PyStr × PyStr) → Option PyStr
  | [] => Option.none
  | (k', v) :: t => if k = k' then some v else lookupStr k t

/-- `pages.create` result (`response['url']`, `response.id`). -/
structure PageResp where
  url : PyStr
  id : PyStr
deriving DecidableEq

/-- `databases.query` result. -/
structure QueryResp where
  results : List PageResp
deriving DecidableEq

/-- The Notion client oracle: the outcome of each API call the handler
makes.  `createPage` receives the properties payload the handler built. -/
structure NotionEnv where
  query : PyStr → Except PyErr QueryResp
  retrieve : Except PyErr DbInfo
  createPage : List (PyStr × NotionProp) → Except PyErr PageResp

/-- `NotionHandler.url_exists_in_database` (lines 677–696): `True` iff the
query succeeds and returns at least one result; `False` on an exception. -/
def url_exists_in_database (env : NotionEnv) (url : PyStr) : Bool :=
  match env.query url with
  | Except.ok response => decide (response.results.length > 0)
  | Except.error _ => false

/-- The five base properties of a tweet entry (lines 49–89). -/
def tweet_base_properties (tweet_data : PyDict) (tweet_url : PyStr) :
    Except PyErr (List (PyStr × NotionProp)) :=
  match dictIndexE tweet_data (pystr "category") with
  | Except.error e => Except.error e
  | Except.ok catV =>
    match asStrE catV with
    | Except.error e => Except.error e
    | Except.ok cat =>
      match dictIndexE tweet_data (pystr "title") with
      | Except.error e => Except.error e
      | Except.ok titleV =>
        match dictIndexE tweet_data (pystr "summary") with
        | Except.error e => Except.error e
        | Except.ok summV =>
          match dictIndexE tweet_data (pystr "importance") with
          | Except.error e => Except.error e
          | Except.ok impV =>
            match pyIntE impV with
            | Except.error e => Except.error e
            | Except.ok imp =>
              Except.ok
                [(pystr "Title", NotionProp.titleP
                    (pyStrOf (dictGetD tweet_data (pystr "emoji")
                        (PyVal.strV (pystr "🐦")))
                      ++ [32] ++ pyStrOf titleV)),
                 (pystr "URL", NotionProp.urlP tweet_url),
                 (pystr "Category", NotionProp.selectP
                    (PyVal.strV (map_to_preferred_category cat))),
                 (pystr "Summary", NotionProp.richTextP summV),
                 (pystr "Importance", NotionProp.numberP imp)]

/-- `"\n• " + "\n• ".join(v)` when `v` is a list (raising `TypeError` when a
member is not a string, as `str.join` does), `str(v)` otherwise. -/
def formatBulletsE (v : PyVal) : Except PyErr PyStr :=
  match v with
  | PyVal.listV items =>
    match items.mapM asStrE with
    | Except.error e => Except.error e
    | Except.ok strs =>
      Except.ok (pystr "\n• " ++ List.intercalate (pystr "\n• ") strs)
  | _ => Except.ok (pyStrOf v)

/-- The enhanced properties added inside the inner `try` of
`create_tweet_entry` (lines 92–161), given the retrieved database info. -/
def enhancedTweetProps (db : DbInfo) (td : PyDict) :
    Except PyErr (List (PyStr × NotionProp)) :=
  match
    (if (lookupStr (pystr "Key Points") db.properties).isSome
        && (dictLookup (pystr "key_points") td).isSome then
      match formatBulletsE (dictGetD td (pystr "key_points") PyVal.noneV) with
      | Except.error e => Except.error e
      | Except.ok txt =>
        Except.ok [(pystr "Key Points",
          NotionProp.richTextP (PyVal.strV txt))]
    else Except.ok []) with
  | Except.error e => Except.error e
  | Except.ok p1 =>
    match
      (if (lookupStr (pystr "Action Items") db.properties).isSome
          && (dictLookup (pystr "action_items") td).isSome then
        match formatBulletsE (dictGetD td (pystr "action_items")
            PyVal.noneV) with
        | Except.error e => Except.error e
        | Except.ok txt =>
          Except.ok [(pystr "Action Items",
            NotionProp.richTextP (PyVal.strV txt))]
      else Except.ok []) with
    | Except.error e => Except.error e
    | Except.ok p2 =>
      let p3 :=
        if (lookupStr (pystr "Personal Reflection") db.properties).isSome
            && (dictLookup (pystr "personal_reflection") td).isSome then
          [(pystr "Personal Reflection", NotionProp.richTextP
            (dictGetD td (pystr "personal_reflection") PyVal.noneV))]
        else []
      let p4 :=
        match lookupStr (pystr "Emoji") db.properties with
        | some t =>
          if t = pystr "rich_text" then
            [(pystr "Emoji", NotionProp.richTextP
              (dictGetD td (pystr "emoji") (PyVal.strV (pystr "🐦"))))]
          else if t = pystr "select" then
            [(pystr "Emoji", NotionProp.selectP
              (dictGetD td (pystr "emoji") (PyVal.strV (pystr "🐦"))))]
          else []
        | Option.none => []
      Except.ok (p1 ++ p2 ++ p3 ++ p4)

/-- The properties payload actually sent: the base properties, plus the
enhanced ones unless retrieving or formatting them raised (the inner
`except` swallows that and continues with the base properties). -/
def tweet_sent_properties (env : NotionEnv) (td : PyDict)
    (props : List (PyStr × NotionProp)) : List (PyStr × NotionProp) :=
  match env.retrieve with
  | Except.error _ => props
  | Except.ok db =>
    match enhancedTweetProps db td with
    | Except.error _ => props
    | Except.ok extra => props ++ extra

/-- The body of `create_tweet_entry` inside its outer `try`. -/
def create_tweet_entry_body (env : NotionEnv) (tweet_data : PyDict)
    (tweet_url : PyStr) : Except PyErr PageResp :=
  match asDictE (dictGetD tweet_data (pystr "extracted_tweet")
      (PyVal.dictV [])) with
  | Except.error e => Except.error e
  | Except.ok _extracted =>
    match tweet_base_properties tweet_data tweet_url with
    | Except.error e => Except.error e
    | Except.ok props =>
      env.createPage (tweet_sent_properties env tweet_data props)

/-- `NotionHandler.create_tweet_entry` (lines 41–388): the outer
`try/except` turns any raised exception into `None`. -/
def create_tweet_entry (env : NotionEnv) (tweet_data : PyDict)
    (tweet_url : PyStr) : Except PyErr (Option PageResp) :=
  match create_tweet_entry_body env tweet_data tweet_url with
  | Except.ok r => Except.ok (some r)
  | Except.error _ => Except.ok Option.none

/-- The five base properties of a website entry (lines 477–505). -/
def website_base_properties (website_data : PyDict) (page_url : Option PyStr) :
    Except PyErr (List (PyStr × NotionProp)) :=
  match asStrE (dictGetD website_data (pystr "category")
      (PyVal.strV (pystr "Other"))) with
  | Except.error e => Except.error e
  | Except.ok cat =>
    match
      (if pyTruthy (dictGetD website_data (pystr "description")
          PyVal.noneV) then
        pySliceE (dictGetD website_data (pystr "description")
          (PyVal.strV [])) 2000
      else Except.ok (PyVal.strV [])) with
    | Except.error e => Except.error e
    | Except.ok summary =>
      Except.ok
        [(pystr "Title", NotionProp.titleP
            (pyStrOf (dictGetD website_data (pystr "emoji")
                (PyVal.strV (pystr "🔗")))
              ++ [32] ++ pyStrOf (dictGetD website_data (pystr "title")
                (PyVal.strV (pystr "Unknown Website"))))),
         (pystr "URL", NotionProp.urlP (page_url.getD [])),
         (pystr "Category", NotionProp.selectP
            (PyVal.strV (map_to_preferred_category cat))),
         (pystr "Importance", NotionProp.numberP 5),
         (pystr "Summary", NotionProp.richTextP summary)]

/-- The Author/Emoji properties added inside the inner `try` of
`create_website_entry` (lines 508–563). -/
def websiteAuthorEmojiProps (db : DbInfo) (author emoji : PyVal) :
    List (PyStr × NotionProp) :=
  (match lookupStr (pystr "Author") db.properties with
   | some t =>
     if t = pystr "people" then []
     else if t = pystr "rich_text" then
       [(pystr "Author", NotionProp.richTextP author)]
     else if t = pystr "select" then
       [(pystr "Author", NotionProp.selectP author)]
     else []
   | Option.none => []) ++
  (match lookupStr (pystr "Emoji") db.properties with
   | some t =>
     if t = pystr "rich_text" then
       [(pystr "Emoji", NotionProp.richTextP emoji)]
     else if t = pystr "select" then
       [(pystr "Emoji", NotionProp.selectP emoji)]
     else []
   | Option.none => [])

/-- The website properties payload actually sent. -/
def website_sent_properties (env : NotionEnv) (wd : PyDict)
    (props : List (PyStr × NotionProp)) : List (PyStr × NotionProp) :=
  match env.retrieve with
  | Except.error _ => props
  | Except.ok db =>
    props ++ websiteAuthorEmojiProps db
      (dictGetD wd (pystr "author") (PyVal.strV (pystr "Unknown")))
      (dictGetD wd (pystr "emoji") (PyVal.strV (pystr "🔗")))

/-- The body of `create_website_entry` inside its outer `try`; returns the
created page id. -/
def create_website_entry_body (env : NotionEnv) (website_data : PyDict)
    (page_url : Option PyStr) : Except PyErr PyStr :=
  match website_base_properties website_data page_url with
  | Except.error e => Except.error e
  | Except.ok props =>
    match env.createPage (website_sent_properties env website_data props) with
    | Except.error e => Except.error e
    | Except.ok resp => Except.ok resp.id

/-- `NotionHandler.create_website_entry` (lines 473–675). -/
def create_website_entry (env : NotionEnv) (website_data : PyDict)
    (page_url : Option PyStr) : Except PyErr (Option PyStr) :=
  match create_website_entry_body env website_data page_url with
  | Except.ok r => Except.ok (some r)
  | Except.error _ => Except.ok Option.none

/-!
## `openai_handler.analyze_tweet` / `analyze_website`

The OpenAI chat call and the JSON parse are oracles.  The prompt string fed
to the model, and the username/tweet-id enrichment that only augments that
prompt (and the copy of `tweet_data` stored under `extracted_tweet`), are
not modelled — no claim touches them.
-/

structure AnalyzeEnv where
  scrape : ScrapeEnv
  chat : Except PyErr PyStr
  parse : PyStr → Except PyErr PyVal

/-- `OpenAIHandler.analyze_tweet` (lines 456–547): extract the tweet, call
the model, parse its JSON answer, attach the extracted tweet; any
`JSONDecodeError` or other exception yields `None`. -/
def analyze_tweet (env : AnalyzeEnv) (tweet_url : PyStr) : Option PyDict :=
  match
    (match env.chat with
     | Except.error e => Except.error e
     | Except.ok content =>
       match env.parse content with
       | Except.error e => Except.error e
       | Except.ok dataV =>
         match asDictE dataV with
         | Except.error e => Except.error e
         | Except.ok data =>
           Except.ok (dictSet data (pystr "extracted_tweet")
             (PyVal.dictV (extract_tweet_content env.scrape tweet_url).1))) with
  | Except.ok d => some d
  | Except.error _ => Option.none

/-- The website-content extraction oracle: `None` models the early return
when Playwright fails to initialise; otherwise the scraped fields. -/
structure WebExtractEnv where
  initOk : Bool
  title : PyStr
  description : PyStr
  content : PyStr

/-- `OpenAIHandler.extract_website_content` (lines 567–647): `None` only
when `init_playwright` fails; otherwise a dict of the scraped fields (the
`except` branch also returns a dict, covered by the oracle fields). -/
def extract_website_content (e : WebExtractEnv) (url : PyStr) :
    Option PyDict :=
  if e.initOk = false then Option.none
  else some
    [(pystr "title", PyVal.strV (pyOrStr (some e.title)
        (pystr "Unknown Title"))),
     (pystr "description", PyVal.strV e.description),
     (pystr "content", PyVal.strV e.content),
     (pystr "url", PyVal.strV url)]

structure WebAnalyzeEnv where
  web : WebExtractEnv
  chat : Except PyErr PyStr
  parse : PyStr → Except PyErr PyVal

/-- `OpenAIHandler.analyze_website` (lines 649–712): when extraction
returned `None`, indexing `website_data['title']` raises (`TypeError`),
caught by the outer `except`. -/
def analyze_website (env : WebAnalyzeEnv) (website_url : PyStr) :
    Option PyDict :=
  match
    (match extract_website_content env.web website_url with
     | Option.none => Except.error PyErr.typeError
     | some wd =>
       match env.chat with
       | Except.error e => Except.error e
       | Except.ok content =>
         match env.parse content with
         | Except.error e => Except.error e
         | Except.ok dataV =>
           match asDictE dataV with
           | Except.error e => Except.error e
           | Except.ok data =>
             Except.ok (dictSet data (pystr "extracted_content")
               (PyVal.dictV
                 [(pystr "title",
                    (dictLookup (pystr "title") wd).getD PyVal.noneV),
                  (pystr "description",
                    (dictLookup (pystr "description") wd).getD
                      PyVal.noneV)]))) with
  | Except.ok d => some d
  | Except.error _ => Option.none

/-- A Notion environment whose `databases.retrieve` raises while
`pages.create` succeeds. -/
def notionEnvRetrieveFails : NotionEnv :=
  ⟨fun _ => Except.ok ⟨[]⟩,
   Except.error PyErr.apiError,
   fun _ => Except.ok ⟨pystr "https://notion.so/p", pystr "page-id"⟩⟩

/-- A well-formed tweet analysis dictionary. -/
def tweetDataOk : PyDict :=
  [(pystr "category", PyVal.strV (pystr "Cool AI")),
   (pystr "title", PyVal.strV (pystr "A tweet")),
   (pystr "summary", PyVal.strV (pystr "Summary")),
   (pystr "importance", PyVal.intV 7)]

/-- Counterexample to C4 as stated: inside `create_tweet_entry` the
`databases.retrieve` step raises, yet the function returns the created page,
not `None` — the inner `except` around the enhanced-properties block
swallows the exception and creation proceeds. -/
theorem C4_error_wrappers_counterexample :
    notionEnvRetrieveFails.retrieve = Except.error PyErr.apiError
    ∧ create_tweet_entry notionEnvRetrieveFails tweetDataOk
        (pystr "https://x.com/a/status/1")
      = Except.ok (some ⟨pystr "https://notion.so/p", pystr "page-id"⟩) :=
  ⟨rfl, rfl⟩

/-- **C4 (amended).** The wrappers never propagate an exception:
`url_exists_in_database` returns `False` when the query raises;
`create_tweet_entry` always returns (`ok`) and yields `None` when a step
outside the enhanced-properties block raises — a required `tweet_data` key
missing, or `pages.create` failing — while an exception in the
enhanced-properties retrieval is caught internally and creation proceeds;
`analyze_tweet` returns `None` when the LLM call raises or its response is
not valid JSON. -/
theorem C4_error_wrappers :
    (∀ (env : NotionEnv) (url : PyStr) (e : PyErr),
        env.query url = Except.error e →
        url_exists_in_database env url = false)
    ∧ (∀ (env : NotionEnv) (td : PyDict) (url : PyStr),
        ∃ v, create_tweet_entry env td url = Except.ok v)
    ∧ (∀ (env : NotionEnv) (td : PyDict) (url : PyStr),
        (∀ p, ∃ e, env.createPage p = Except.error e) →
        create_tweet_entry env td url = Except.ok Option.none)
    ∧ (∀ (env : NotionEnv) (td : PyDict) (url : PyStr),
        dictLookup (pystr "category") td = Option.none →
        create_tweet_entry env td url = Except.ok Option.none)
    ∧ (∀ (env : AnalyzeEnv) (url : PyStr) (e : PyErr),
        env.chat = Except.error e → analyze_tweet env url = Option.none)
    ∧ (∀ (env : AnalyzeEnv) (url s : PyStr) (e : PyErr),
        env.chat = Except.ok s → env.parse s = Except.error e →
        analyze_tweet env url = Option.none) := by
  refine ⟨?_, ?_, ?_, ?_, ?_, ?_⟩
  · intro env url e he
    unfold url_exists_in_database
    rw [he]
  · intro env td url
    unfold create_tweet_entry
    cases create_tweet_entry_body env td url <;> exact ⟨_, rfl⟩
  · intro env td url hcp
    unfold create_tweet_entry create_tweet_entry_body
    cases asDictE (dictGetD td (pystr "extracted_tweet") (PyVal.dictV [])) with
    | error e => rfl
    | ok ex =>
      cases tweet_base_properties td url with
      | error e => rfl
      | ok props =>
        obtain ⟨e, he⟩ := hcp (tweet_sent_properties env td props)
        dsimp only
        rw [he]
  · intro env td url hcat
    unfold create_tweet_entry create_tweet_entry_body
    cases asDictE (dictGetD td (pystr "extracted_tweet") (PyVal.dictV [])) with
    | error e => rfl
    | ok ex =>
      have hb : tweet_base_properties td url = Except.error PyErr.keyError := by
        unfold tweet_base_properties dictIndexE
        rw [hcat]
      rw [hb]
  · intro env url e he
    unfold analyze_tweet
    rw [he]
  · intro env url s e hc hp
    unfold analyze_tweet
    rw [hc]
    dsimp only
    rw [hp]

/-- Witness for C4 (amended) at concrete failing environments. -/
theorem C4_error_wrappers_witness :
    url_exists_in_database
      ⟨fun _ => Except.error PyErr.apiError, Except.error PyErr.apiError,
        fun _ => Except.error PyErr.apiError⟩
      (pystr "https://x.com/a/status/1") = false
    ∧ create_tweet_entry
        ⟨fun _ => Except.ok ⟨[]⟩, Except.error PyErr.apiError,
          fun _ => Except.error PyErr.apiError⟩
        tweetDataOk (pystr "https://x.com/a/status/1")
      = Except.ok Option.none
    ∧ analyze_tweet
        ⟨scrapeEnvAllFail, Except.error PyErr.apiError, fun _ =>
          Except.error PyErr.jsonDecodeError⟩
        (pystr "https://x.com/a/status/1") = Option.none :=
  ⟨(C4_error_wrappers).1 _ _ PyErr.apiError rfl,
   (C4_error_wrappers).2.2.1 _ _ _ (fun _ => ⟨PyErr.apiError, rfl⟩),
   (C4_error_wrappers).2.2.2.2.1 _ _ PyErr.apiError rfl⟩

lemma lookupProp_append_left {k : PyStr} {props extra : List (PyStr × NotionProp)}
    (h : (lookupProp k props).isSome) :
    lookupProp k (props ++ extra) = lookupProp k props := by
  induction props with
  | nil => simp [lookupProp] at h
  | cons p t ih =>
    rcases p with ⟨k', v⟩
    by_cases hk : k = k'
    · simp [lookupProp, hk]
    · rw [List.cons_append]
      unfold lookupProp
      rw [if_neg hk, if_neg hk] at *
      exact ih (by simpa [lookupProp, hk] using h)

/-- **C6.** Both entry builders produce the five base properties `Title`,
`URL`, `Category`, `Summary`, `Importance`: the tweet entry gets the
emoji-prefixed analysis title, the tweet URL, the mapped category and the
integer importance; the website entry always sets `Importance` to 5 and
`Summary` to at most 2000 characters of the description.  The enhanced
properties are appended after the base ones, so the base values survive into
the payload actually sent to `pages.create`. -/
theorem C6_notion_entry_properties :
    (∀ (td : PyDict) (url cat : PyStr) (titleV summV : PyVal) (imp : Int),
      dictLookup (pystr "category") td = some (PyVal.strV cat) →
      dictLookup (pystr "title") td = some titleV →
      dictLookup (pystr "summary") td = some summV →
      dictLookup (pystr "importance") td = some (PyVal.intV imp) →
      tweet_base_properties td url = Except.ok
        [(pystr "Title", NotionProp.titleP
            (pyStrOf (dictGetD td (pystr "emoji") (PyVal.strV (pystr "🐦")))
              ++ [32] ++ pyStrOf titleV)),
         (pystr "URL", NotionProp.urlP url),
         (pystr "Category", NotionProp.selectP
            (PyVal.strV (map_to_preferred_category cat))),
         (pystr "Summary", NotionProp.richTextP summV),
         (pystr "Importance", NotionProp.numberP imp)])
    ∧ (∀ (wd : PyDict) (pu : Option PyStr) (cat desc : PyStr),
      dictLookup (pystr "category") wd = some (PyVal.strV cat) →
      dictLookup (pystr "description") wd = some (PyVal.strV desc) →
      website_base_properties wd pu = Except.ok
        [(pystr "Title", NotionProp.titleP
            (pyStrOf (dictGetD wd (pystr "emoji") (PyVal.strV (pystr "🔗")))
              ++ [32] ++ pyStrOf (dictGetD wd (pystr "title")
                (PyVal.strV (pystr "Unknown Website"))))),
         (pystr "URL", NotionProp.urlP (pu.getD [])),
         (pystr "Category", NotionProp.selectP
            (PyVal.strV (map_to_preferred_category cat))),
         (pystr "Importance", NotionProp.numberP 5),
         (pystr "Summary", NotionProp.richTextP
            (PyVal.strV (desc.take 2000)))])
    ∧ (∀ (env : NotionEnv) (td : PyDict) (props : List (PyStr × NotionProp))
        (k : PyStr), (lookupProp k props).isSome →
        lookupProp k (tweet_sent_properties env td props) = lookupProp k props)
    ∧ (∀ (env : NotionEnv) (wd : PyDict) (props : List (PyStr × NotionProp))
        (k : PyStr), (lookupProp k props).isSome →
        lookupProp k (website_sent_properties env wd props)
          = lookupProp k props) := by
  refine ⟨?_, ?_, ?_, ?_⟩
  · intro td url cat titleV summV imp hcat htitle hsumm himp
    unfold tweet_base_properties dictIndexE
    rw [hcat, htitle, hsumm, himp]
    rfl
  · intro wd pu cat desc hcat hdesc
    unfold website_base_properties dictGetD
    rw [hcat, hdesc]
    dsimp only [Option.getD, asStrE, pyTruthy]
    by_cases hde : desc.isEmpty
    · have hnil : desc = [] := by simpa using hde
      subst hnil
      rfl
    · rw [if_pos (by simp [hde])]
      rfl
  · intro env td props k h
    unfold tweet_sent_properties
    cases env.retrieve with
    | error e => rfl
    | ok db =>
      dsimp only
      cases enhancedTweetProps db td with
      | error e => rfl
      | ok extra => exact lookupProp_append_left h
  · intro env wd props k h
    unfold website_sent_properties
    cases env.retrieve with
    | error e => rfl
    | ok db =>
      dsimp only
      exact lookupProp_append_left h

/-- A website analysis dictionary used by the C6 witness. -/
def websiteDataOk : PyDict :=
  [(pystr "category", PyVal.strV (pystr "Tool site")),
   (pystr "title", PyVal.strV (pystr "A site")),
   (pystr "description", PyVal.strV (pystr "It does things.")),
   (pystr "author", PyVal.strV (pystr "Alice"))]

/-- Witness for C6 at concrete tweet and website dictionaries. -/
theorem C6_notion_entry_properties_witness :
    tweet_base_properties tweetDataOk (pystr "https://x.com/a/status/1")
      = Except.ok
        [(pystr "Title", NotionProp.titleP
            (pystr "🐦" ++ [32] ++ pystr "A tweet")),
         (pystr "URL", NotionProp.urlP (pystr "https://x.com/a/status/1")),
         (pystr "Category", NotionProp.selectP (PyVal.strV (pystr "Cool AI"))),
         (pystr "Summary", NotionProp.richTextP
            (PyVal.strV (pystr "Summary"))),
         (pystr "Importance", NotionProp.numberP 7)]
    ∧ website_base_properties websiteDataOk
        (some (pystr "https://example.com")) = Except.ok
        [(pystr "Title", NotionProp.titleP
            (pystr "🔗" ++ [32] ++ pystr "A site")),
         (pystr "URL", NotionProp.urlP (pystr "https://example.com")),
         (pystr "Category", NotionProp.selectP
            (PyVal.strV (pystr "Cool Tool"))),
         (pystr "Importance", NotionProp.numberP 5),
         (pystr "Summary", NotionProp.richTextP
            (PyVal.strV ((pystr "It does things.").take 2000)))] :=
  ⟨(C6_notion_entry_properties).1 tweetDataOk _ (pystr "Cool AI")
      (PyVal.strV (pystr "A tweet")) (PyVal.strV (pystr "Summary")) 7
      rfl rfl rfl rfl,
   (C6_notion_entry_properties).2.1 websiteDataOk _ (pystr "Tool site")
      (pystr "It does things.") rfl rfl⟩

/-!
## `main.py`: per-URL processing and `process_message`

`ProcEnv` bundles the oracles of one processing run.  `exc` models an
exception raised inside `process_message`'s `try` block that is not caught
deeper down (in the Telegram path the `reply_text` calls can raise); the
per-URL processors themselves catch everything.  The traces record, in
order, the externally visible steps a processor performed.
-/

inductive ProcStep where
  | checkExists
  | analyze
  | createEntry
deriving DecidableEq

structure ProcEnv where
  notion : NotionEnv
  llm : AnalyzeEnv
  web : WebAnalyzeEnv
  exc : Option PyErr

/-- `process_twitter_url` (lines 196–316): duplicate check, then analysis,
then entry creation; the outer `except` returns `None` (a missing or
non-string `category` in the analysis raises inside
`map_to_preferred_category` before the entry is created). -/
def process_twitter_url (env : ProcEnv) (url : PyStr) :
    Option PageResp × List ProcStep :=
  if url_exists_in_database env.notion url then
    (Option.none, [ProcStep.checkExists])
  else
    match analyze_tweet env.llm url with
    | Option.none => (Option.none, [ProcStep.checkExists, ProcStep.analyze])
    | some tweet_data =>
      match dictLookup (pystr "category") tweet_data with
      | Option.none => (Option.none, [ProcStep.checkExists, ProcStep.analyze])
      | some catV =>
        match asStrE catV with
        | Except.error _ =>
          (Option.none, [ProcStep.checkExists, ProcStep.analyze])
        | Except.ok _cat =>
          match create_tweet_entry env.notion tweet_data url with
          | Except.ok (some resp) =>
            (some resp,
              [ProcStep.checkExists, ProcStep.analyze, ProcStep.createEntry])
          | _ =>
            (Option.none,
              [ProcStep.checkExists, ProcStep.analyze, ProcStep.createEntry])

/-- `process_website_url` (lines 318–380). -/
def process_website_url (env : ProcEnv) (url : PyStr) :
    Option PyStr × List ProcStep :=
  if url_exists_in_database env.notion url then
    (Option.none, [ProcStep.checkExists])
  else
    match analyze_website env.web url with
    | Option.none => (Option.none, [ProcStep.checkExists, ProcStep.analyze])
    | some website_data =>
      match asStrE (dictGetD website_data (pystr "category")
          (PyVal.strV (pystr "Other"))) with
      | Except.error _ =>
        (Option.none, [ProcStep.checkExists, ProcStep.analyze])
      | Except.ok _cat =>
        match create_website_entry env.notion website_data (some url) with
        | Except.ok (some pid) =>
          (some pid,
            [ProcStep.checkExists, ProcStep.analyze, ProcStep.createEntry])
        | _ =>
          (Option.none,
            [ProcStep.checkExists, ProcStep.analyze, ProcStep.createEntry])

/-- **C5.** Both per-URL processors check for an existing URL first, then the
analysis result, and return `None` before any entry creation in either
failure case; an entry-creation step appears in a trace only after a failed
duplicate check and a successful analysis, in that order. -/
theorem C5_persist_order (env : ProcEnv) (url : PyStr) :
    (url_exists_in_database env.notion url = true →
      process_twitter_url env url = (Option.none, [ProcStep.checkExists]))
    ∧ (url_exists_in_database env.notion url = false →
       analyze_tweet env.llm url = Option.none →
       process_twitter_url env url
         = (Option.none, [ProcStep.checkExists, ProcStep.analyze]))
    ∧ (∀ r t, process_twitter_url env url = (r, t) →
        ProcStep.createEntry ∈ t →
        t = [ProcStep.checkExists, ProcStep.analyze, ProcStep.createEntry]
        ∧ url_exists_in_database env.notion url = false
        ∧ analyze_tweet env.llm url ≠ Option.none)
    ∧ (url_exists_in_database env.notion url = true →
      process_website_url env url = (Option.none, [ProcStep.checkExists]))
    ∧ (url_exists_in_database env.notion url = false →
       analyze_website env.web url = Option.none →
       process_website_url env url
         = (Option.none, [ProcStep.checkExists, ProcStep.analyze]))
    ∧ (∀ r t, process_website_url env url = (r, t) →
        ProcStep.createEntry ∈ t →
        t = [ProcStep.checkExists, ProcStep.analyze, ProcStep.createEntry]
        ∧ url_exists_in_database env.notion url = false
        ∧ analyze_website env.web url ≠ Option.none) := by
  refine ⟨?_, ?_, ?_, ?_, ?_, ?_⟩
  · intro hex
    unfold process_twitter_url
    rw [if_pos hex]
  · intro hex han
    unfold process_twitter_url
    rw [if_neg (by simp [hex]), han]
  · intro r t hpt hct
    by_cases hex : url_exists_in_database env.notion url
    · have heq : process_twitter_url env url
          = (Option.none, [ProcStep.checkExists]) := by
        unfold process_twitter_url
        rw [if_pos hex]
      rw [heq] at hpt
      rw [← (Prod.mk.inj hpt).2] at hct
      simp at hct
    · cases han : analyze_tweet env.llm url with
      | none =>
        have heq : process_twitter_url env url
            = (Option.none, [ProcStep.checkExists, ProcStep.analyze]) := by
          unfold process_twitter_url
          simp [hex, han]
        rw [heq] at hpt
        rw [← (Prod.mk.inj hpt).2] at hct
        simp at hct
      | some td =>
        rcases hcat : dictLookup (pystr "category") td with _ | catV
        · have heq : process_twitter_url env url
              = (Option.none, [ProcStep.checkExists, ProcStep.analyze]) := by
            unfold process_twitter_url
            simp [hex, han, hcat]
          rw [heq] at hpt
          rw [← (Prod.mk.inj hpt).2] at hct
          simp at hct
        · rcases hstr : asStrE catV with e | cat
          · have heq : process_twitter_url env url
                = (Option.none, [ProcStep.checkExists, ProcStep.analyze]) := by
              unfold process_twitter_url
              simp [hex, han, hcat, hstr]
            rw [heq] at hpt
            rw [← (Prod.mk.inj hpt).2] at hct
            simp at hct
          · refine ⟨?_, by simpa using hex, by simp [han]⟩
            rcases hcre : create_tweet_entry env.notion td url with e | v
            · have heq : process_twitter_url env url = (Option.none,
                  [ProcStep.checkExists, ProcStep.analyze,
                    ProcStep.createEntry]) := by
                unfold process_twitter_url
                simp [hex, han, hcat, hstr, hcre]
              rw [heq] at hpt
              exact (Prod.mk.inj hpt).2.symm
            · cases v with
              | none =>
                have heq : process_twitter_url env url = (Option.none,
                    [ProcStep.checkExists, ProcStep.analyze,
                      ProcStep.createEntry]) := by
                  unfold process_twitter_url
                  simp [hex, han, hcat, hstr, hcre]
                rw [heq] at hpt
                exact (Prod.mk.inj hpt).2.symm
              | some resp =>
                have heq : process_twitter_url env url = (some resp,
                    [ProcStep.checkExists, ProcStep.analyze,
                      ProcStep.createEntry]) := by
                  unfold process_twitter_url
                  simp [hex, han, hcat, hstr, hcre]
                rw [heq] at hpt
                exact (Prod.mk.inj hpt).2.symm
  · intro hex
    unfold process_website_url
    rw [if_pos hex]
  · intro hex han
    unfold process_website_url
    rw [if_neg (by simp [hex]), han]
  · intro r t hpt hct
    by_cases hex : url_exists_in_database env.notion url
    · have heq : process_website_url env url
          = (Option.none, [ProcStep.checkExists]) := by
        unfold process_website_url
        rw [if_pos hex]
      rw [heq] at hpt
      rw [← (Prod.mk.inj hpt).2] at hct
      simp at hct
    · cases han : analyze_website env.web url with
      | none =>
        have heq : process_website_url env url
            = (Option.none, [ProcStep.checkExists, ProcStep.analyze]) := by
          unfold process_website_url
          simp [hex, han]
        rw [heq] at hpt
        rw [← (Prod.mk.inj hpt).2] at hct
        simp at hct
      | some wd =>
        rcases hstr : asStrE (dictGetD wd (pystr "category")
            (PyVal.strV (pystr "Other"))) with e | cat
        · have heq : process_website_url env url
              = (Option.none, [ProcStep.checkExists, ProcStep.analyze]) := by
            unfold process_website_url
            simp [hex, han, hstr]
          rw [heq] at hpt
          rw [← (Prod.mk.inj hpt).2] at hct
          simp at hct
        · refine ⟨?_, by simpa using hex, by simp [han]⟩
          rcases hcre : create_website_entry env.notion wd (some url)
            with e | v
          · have heq : process_website_url env url = (Option.none,
                [ProcStep.checkExists, ProcStep.analyze,
                  ProcStep.createEntry]) := by
              unfold process_website_url
              simp [hex, han, hstr, hcre]
            rw [heq] at hpt
            exact (Prod.mk.inj hpt).2.symm
          · cases v with
            | none =>
              have heq : process_website_url env url = (Option.none,
                  [ProcStep.checkExists, ProcStep.analyze,
                    ProcStep.createEntry]) := by
                unfold process_website_url
                simp [hex, han, hstr, hcre]
              rw [heq] at hpt
              exact (Prod.mk.inj hpt).2.symm
            | some pid =>
              have heq : process_website_url env url = (some pid,
                  [ProcStep.checkExists, ProcStep.analyze,
                    ProcStep.createEntry]) := by
                unfold process_website_url
                simp [hex, han, hstr, hcre]
              rw [heq] at hpt
              exact (Prod.mk.inj hpt).2.symm

/-- An LLM environment whose chat call raises. -/
def llmFailEnv : AnalyzeEnv :=
  ⟨scrapeEnvAllFail, Except.error PyErr.apiError,
    fun _ => Except.error PyErr.jsonDecodeError⟩

/-- A website-analysis environment that fails at extraction. -/
def webFailEnv : WebAnalyzeEnv :=
  ⟨⟨false, [], [], []⟩, Except.error PyErr.apiError,
    fun _ => Except.error PyErr.jsonDecodeError⟩

/-- A Notion environment whose query always finds one existing page. -/
def notionEnvHasUrl : NotionEnv :=
  ⟨fun _ => Except.ok ⟨[⟨pystr "u", pystr "i"⟩]⟩,
    Except.error PyErr.apiError, fun _ => Except.error PyErr.apiError⟩

/-- A Notion environment whose query finds nothing. -/
def notionEnvEmpty : NotionEnv :=
  ⟨fun _ => Except.ok ⟨[]⟩, Except.error PyErr.apiError,
    fun _ => Except.error PyErr.apiError⟩

def procEnvExists : ProcEnv :=
  ⟨notionEnvHasUrl, llmFailEnv, webFailEnv, Option.none⟩

def procEnvNoUrl : ProcEnv :=
  ⟨notionEnvEmpty, llmFailEnv, webFailEnv, Option.none⟩

/-- Witness for C5: a duplicate URL stops before analysis; a failed analysis
stops before entry creation. -/
theorem C5_persist_order_witness :
    process_twitter_url procEnvExists (pystr "https://x.com/a/status/1")
      = (Option.none, [ProcStep.checkExists])
    ∧ process_website_url procEnvNoUrl (pystr "https://example.com")
      = (Option.none, [ProcStep.checkExists, ProcStep.analyze]) :=
  ⟨(C5_persist_order procEnvExists (pystr "https://x.com/a/status/1")).1 rfl,
   (C5_persist_order procEnvNoUrl
      (pystr "https://example.com")).2.2.2.2.1 rfl rfl⟩

/-- `process_message` (lines 116–194), in its command-line form
(`text` argument; the Telegram replies only add messaging).  Returns `False`
when no text was supplied (or it is empty, which is falsy), when no URL was
found, or when an exception was raised during processing; otherwise it
processes every URL and returns `True` regardless of the per-URL outcomes. -/
def process_message (env : ProcEnv) (text : Option PyStr) : Bool :=
  match text with
  | Option.none => false
  | some message_text =>
    if message_text.isEmpty then false
    else if (extract_urls message_text).1.isEmpty
        && (extract_urls message_text).2.isEmpty then false
    else
      match env.exc with
      | some _ => false
      | Option.none =>
        let _twitter_results :=
          (extract_urls message_text).1.map fun u =>
            (process_twitter_url env u).1
        let _website_results :=
          (extract_urls message_text).2.map fun u =>
            (process_website_url env u).1
        true

/-- **C10.** `process_message` returns `True` exactly when a message text was
supplied, at least one Twitter or general URL was found in it, and no
exception interrupted processing — independently of whether any per-URL step
produced a Notion entry (second conjunct: the result depends on the
environment only through the injected exception). -/
theorem C10_process_message (env : ProcEnv) (text : Option PyStr) :
    (process_message env text = true ↔
      ∃ msg, text = some msg ∧ msg ≠ []
        ∧ ((extract_urls msg).1 ≠ [] ∨ (extract_urls msg).2 ≠ [])
        ∧ env.exc = Option.none)
    ∧ (∀ env' : ProcEnv, env'.exc = env.exc →
        process_message env' text = process_message env text) := by
  constructor
  · cases text with
    | none => simp [process_message]
    | some msg =>
      by_cases hemp : msg.isEmpty
      · have hnil : msg = [] := by simpa using hemp
        subst hnil
        simp [process_message]
      · by_cases hurl : (extract_urls msg).1.isEmpty
            && (extract_urls msg).2.isEmpty
        · have hand : (extract_urls msg).1.isEmpty = true
              ∧ (extract_urls msg).2.isEmpty = true := by simpa using hurl
          have h1 : (extract_urls msg).1 = [] := by simpa using hand.1
          have h2 : (extract_urls msg).2 = [] := by simpa using hand.2
          simp [process_message, hemp, hurl, h1, h2]
        · cases hexc : env.exc with
          | some e => simp [process_message, hemp, hurl, hexc]
          | none =>
            simp only [process_message, hemp, hurl, hexc]
            constructor
            · intro _
              refine ⟨msg, rfl, by simpa using hemp, ?_, trivial⟩
              by_contra hcon
              push_neg at hcon
              exact hurl (by simp [hcon.1, hcon.2])
            · intro _
              simp
  · intro env' he
    unfold process_message
    cases text with
    | none => rfl
    | some msg => rw [he]

/-- Witness for C10: a message whose only URL is a tweet is processed as
`True` even though every per-URL step fails in `procEnvNoUrl`. -/
theorem C10_process_message_witness :
    process_message procEnvNoUrl
      (some (pystr "check https://x.com/ab/status/12")) = true :=
  (C10_process_message procEnvNoUrl
      (some (pystr "check https://x.com/ab/status/12"))).1.mpr
    ⟨pystr "check https://x.com/ab/status/12", rfl, by decide,
      Or.inl (by decide), rfl⟩
